import Mathlib

/-!
Verification of the command-parsing front end and registry layer of the
Witcher-Tracker-CPP program (src/CommandParser.cpp, src/WitcherTracker.cpp,
src/Inventory.cpp, src/Bestiary.cpp, src/Beast.cpp, src/AlchemyKnowledge.cpp,
src/main.cpp).

Strings are modelled as `List Char`; a token is likewise a `List Char`.
Each Lean definition is a direct transcription of the corresponding C++
function.  Index-driven `while` loops over characters are rendered as
recursive scanners over the remaining suffix of the input; where a loop's
progress is not structural, an explicit fuel argument bounded by the input
length is used (the fuel is always sufficient, since every iteration of the
corresponding C++ loop consumes at least one character).
-/

set_option autoImplicit false

/-! ## Character classes (C locale `isspace`, `isdigit`, `isalpha` on ASCII) -/

def cIsSpace (c : Char) : Bool :=
  c = ' ' || c = '\t' || c = '\n' || c = Char.ofNat 11 || c = Char.ofNat 12 || c = '\r'

def cIsDigit (c : Char) : Bool :=
  '0' ≤ c && c ≤ '9'

def cIsAlpha (c : Char) : Bool :=
  ('A' ≤ c && c ≤ 'Z') || ('a' ≤ c && c ≤ 'z')

/-- Convert a Lean string literal to the `List Char` representation. -/
def str (s : String) : List Char := s.data

/-! ## Keyword and punctuation literals (reserved words of the grammar) -/

def kwWhat : List Char := ['W', 'h', 'a', 't']
def kwTotal : List Char := ['T', 'o', 't', 'a', 'l']
def kwGeralt : List Char := ['G', 'e', 'r', 'a', 'l', 't']
def kwBrews : List Char := ['b', 'r', 'e', 'w', 's']
def kwLearns : List Char := ['l', 'e', 'a', 'r', 'n', 's']
def kwTrades : List Char := ['t', 'r', 'a', 'd', 'e', 's']
def kwLoots : List Char := ['l', 'o', 'o', 't', 's']
def kwEncounters : List Char := ['e', 'n', 'c', 'o', 'u', 'n', 't', 'e', 'r', 's']
def kwIs : List Char := ['i', 's']
def kwIn : List Char := ['i', 'n']
def kwEffective : List Char := ['e', 'f', 'f', 'e', 'c', 't', 'i', 'v', 'e']
def kwAgainst : List Char := ['a', 'g', 'a', 'i', 'n', 's', 't']
def kwSign : List Char := ['s', 'i', 'g', 'n']
def kwPotion : List Char := ['p', 'o', 't', 'i', 'o', 'n']
def kwConsists : List Char := ['c', 'o', 'n', 's', 'i', 's', 't', 's']
def kwOf : List Char := ['o', 'f']
def kwTrophy : List Char := ['t', 'r', 'o', 'p', 'h', 'y']
def kwFor : List Char := ['f', 'o', 'r']
def kwA : List Char := ['a']
def strComma : List Char := [',']
def strQ : List Char := ['?']
def strIngredient : List Char := ['i', 'n', 'g', 'r', 'e', 'd', 'i', 'e', 'n', 't']
def strExit : List Char := ['E', 'x', 'i', 't']
def strINVALID : List Char := ['I', 'N', 'V', 'A', 'L', 'I', 'D']

/-! ## Small string helpers -/

/-- Drop trailing whitespace (the `while (end > start && isspace(input[end-1])) end--`
pattern of the C++ code). -/
def trimTrailing (l : List Char) : List Char :=
  (l.reverse.dropWhile cIsSpace).reverse

/-- Whole-word keyword match at the head of `s`: the C++ pattern
`input.substr(i, n) == kw && (i + n >= inputLen || isspace(input[i + n]))`.
Returns the remainder (starting at the boundary character) on success. -/
def stripKeyword : List Char → List Char → Option (List Char)
  | [], rest => if cIsSpace (rest.headD ' ') then some rest else none
  | _ :: _, [] => none
  | k :: ks, c :: s => if c = k then stripKeyword ks s else none

/-! ## Generic fallback tokenizer

C++ `tokenizeInput`, lines 597-629 (and the identical loops after a `?` token
and in the `trades` branch): skip whitespace; a `,` becomes its own token;
any other maximal run of non-whitespace non-comma characters is one token.
Rendered as a single-pass scanner with an accumulator `cur` holding the
(reversed) characters of the token currently being read. -/

def genTokAux (cur : List Char) : List Char → List (List Char)
  | [] => if cur = [] then [] else [cur.reverse]
  | c :: s =>
    if cIsSpace c then
      if cur = [] then genTokAux [] s else cur.reverse :: genTokAux [] s
    else if c = ',' then
      if cur = [] then strComma :: genTokAux [] s
      else cur.reverse :: strComma :: genTokAux [] s
    else genTokAux (c :: cur) s

def genTok (s : List Char) : List (List Char) := genTokAux [] s

/-! ## Question-mark name capture

C++ pattern used by "What is in", "What is effective against" and the
"Total" item capture: the name is everything up to the first `?` (or end of
line), with trailing whitespace trimmed; then a `?` token is pushed when a
`?` exists, and everything after it is generically tokenized. -/

def qNameTail (s : List Char) : List (List Char) :=
  let nm := trimTrailing (s.takeWhile (fun c => !(c == '?')))
  let restQ := s.dropWhile (fun c => !(c == '?'))
  (if nm = [] then [] else [nm]) ++
    (match restQ with
     | '?' :: r => strQ :: genTok r
     | _ => [])

/-! ## "Total" branch (C++ tokenizeInput lines 202-321), remainder after the
`Total` keyword.  The category is a run of non-whitespace non-`?` characters;
an immediate `?` makes an all-inventory query, end of input returns just the
category, and otherwise a specific item name is captured up to `?`. -/

def totalTail (r : List Char) : List (List Char) :=
  let s1 := r.dropWhile cIsSpace
  let cat := s1.takeWhile (fun c => !(cIsSpace c) && !(c == '?'))
  let s2 := s1.dropWhile (fun c => !(cIsSpace c) && !(c == '?'))
  let s3 := s2.dropWhile cIsSpace
  let catToks := if cat = [] then ([] : List (List Char)) else [cat]
  match s3 with
  | '?' :: rest => catToks ++ [strQ] ++ genTok rest
  | [] => catToks
  | _ => catToks ++ qNameTail s3

/-! ## "Geralt learns" branch (C++ tokenizeInput lines 357-556) -/

/-- Word-by-word scan for the first occurrence of `sign` or `potion`
(C++ lines 372-393 and the `tempTokens.size() >= 2` / `rawEnd > rawStart`
checks).  `pre` accumulates the raw text consumed before the current word;
on success returns the (trimmed) name, the matched keyword, and the
remainder starting at the keyword's word end.  Returns `none` when no
keyword (with a nonempty name before it) is found, in which case the C++
code returns just `[Geralt, learns]`.  The fuel is called with
`length + 1` and never runs out (each step consumes at least one char). -/
def learnsScan : Nat → List Char → List Char → Option (List Char × List Char × List Char)
  | 0, _, _ => none
  | fuel + 1, pre, s =>
    let s1 := s.dropWhile cIsSpace
    let w := s1.takeWhile (fun c => !(cIsSpace c))
    let rest := s1.dropWhile (fun c => !(cIsSpace c))
    if w = [] then none
    else if w = kwSign ∨ w = kwPotion then
      let nm := trimTrailing (pre.dropWhile cIsSpace)
      if nm = [] then none else some (nm, w, rest)
    else learnsScan fuel (pre ++ s.take (s.length - rest.length)) rest

/-- Ingredient-list loop after "consists of" (C++ lines 475-546): a leading
digit run is a quantity token, the following run of non-space non-comma
characters is a name token, other words are taken whole, and a `,` after an
item becomes its own token. -/
def learnsList : Nat → List Char → List (List Char)
  | 0, _ => []
  | fuel + 1, s =>
    let s1 := s.dropWhile cIsSpace
    match s1 with
    | [] => []
    | c :: _ =>
      if cIsDigit c then
        let num := s1.takeWhile cIsDigit
        let s2 := s1.dropWhile cIsDigit
        let s3 := s2.dropWhile cIsSpace
        let nm := s3.takeWhile (fun x => !(cIsSpace x) && !(x == ','))
        let s4 := s3.dropWhile (fun x => !(cIsSpace x) && !(x == ','))
        let s5 := s4.dropWhile cIsSpace
        let toks := [num] ++ (if nm = [] then ([] : List (List Char)) else [nm])
        match s5 with
        | ',' :: r => toks ++ [strComma] ++ learnsList fuel r
        | r => toks ++ learnsList fuel r
      else
        let w := s1.takeWhile (fun x => !(cIsSpace x) && !(x == ','))
        let s2 := s1.dropWhile (fun x => !(cIsSpace x) && !(x == ','))
        let s3 := s2.dropWhile cIsSpace
        let toks := if w = [] then ([] : List (List Char)) else [w]
        match s3 with
        | ',' :: r => toks ++ [strComma] ++ learnsList fuel r
        | r => toks ++ learnsList fuel r

/-- "consists of" phase (C++ lines 454-549), entered after the
is/effective/against chain failed part-way; `toks` already holds any
partially pushed keyword tokens, `rest` starts at the word end of the
`sign`/`potion` keyword (the `i = wordEnd` reset). -/
def learnsConsists (toks : List (List Char)) (rest : List Char) : List (List Char) :=
  let r := rest.dropWhile cIsSpace
  match stripKeyword kwConsists r with
  | none => toks
  | some r2 =>
    let toks2 := toks ++ [kwConsists]
    let r2a := r2.dropWhile cIsSpace
    match stripKeyword kwOf r2a with
    | none => toks2
    | some r3 => toks2 ++ [kwOf] ++ learnsList (r3.length + 1) r3

/-- Full learns branch: `s` is the remainder right after the `learns`
keyword.  On a found `sign`/`potion` keyword with a name before it, try
"is effective against" (capturing the rest of the line as the monster
name), falling back to the "consists of" phase with any partial pushes
kept (exactly the C++ control flow). -/
def learnsBranch (s : List Char) : List (List Char) :=
  let s0 := s.dropWhile cIsSpace
  match learnsScan (s0.length + 1) [] s0 with
  | none => [kwGeralt, kwLearns]
  | some (nm, kw, rest) =>
    let base := [kwGeralt, kwLearns, nm, kw]
    let r1 := rest.dropWhile cIsSpace
    match stripKeyword kwIs r1 with
    | none => learnsConsists base rest
    | some r2 =>
      let r2a := r2.dropWhile cIsSpace
      match stripKeyword kwEffective r2a with
      | none => learnsConsists (base ++ [kwIs]) rest
      | some r3 =>
        let r3a := r3.dropWhile cIsSpace
        match stripKeyword kwAgainst r3a with
        | none => learnsConsists (base ++ [kwIs, kwEffective]) rest
        | some r4 =>
          let r4a := r4.dropWhile cIsSpace
          base ++ [kwIs, kwEffective, kwAgainst] ++
            (if r4a = [] then ([] : List (List Char)) else [r4a])

/-! ## Main tokenizer (C++ `CommandParser::tokenizeInput`)

When a partially matched "What ..." prefix fails, the C++ code falls
through to the "Total" check at the current position with the already
pushed tokens kept (`pre`); the "Geralt" check then restarts from position
0 (still keeping `pre`, though a line cannot both start with "What" and
with "Geralt"), and the generic fallback finally clears all tokens and
re-tokenizes the whole line. -/

def totalOrGeralt (pre : List (List Char)) (s input : List Char) : List (List Char) :=
  match stripKeyword kwTotal s with
  | some r => pre ++ [kwTotal] ++ totalTail r
  | none =>
    let s2 := input.dropWhile cIsSpace
    match stripKeyword kwGeralt s2 with
    | some r =>
      let r1 := r.dropWhile cIsSpace
      match stripKeyword kwBrews r1 with
      | some rb =>
        let rb1 := rb.dropWhile cIsSpace
        pre ++ [kwGeralt, kwBrews] ++ (if rb1 = [] then ([] : List (List Char)) else [rb1])
      | none =>
        match stripKeyword kwLearns r1 with
        | some rl => pre ++ learnsBranch rl
        | none =>
          match stripKeyword kwTrades r1 with
          | some rt => pre ++ [kwGeralt, kwTrades] ++ genTok rt
          | none => genTok input
    | none => genTok input

def tokenizeInput (input : List Char) : List (List Char) :=
  let s0 := input.dropWhile cIsSpace
  match stripKeyword kwWhat s0 with
  | none => totalOrGeralt [] s0 input
  | some r =>
    let r1 := r.dropWhile cIsSpace
    match stripKeyword kwIs r1 with
    | none => totalOrGeralt [kwWhat] r1 input
    | some r2 =>
      let r2a := r2.dropWhile cIsSpace
      match stripKeyword kwIn r2a with
      | some r3 => [kwWhat, kwIs, kwIn] ++ qNameTail (r3.dropWhile cIsSpace)
      | none =>
        match stripKeyword kwEffective r2a with
        | none => totalOrGeralt [kwWhat, kwIs] r2a input
        | some r3 =>
          let r3a := r3.dropWhile cIsSpace
          match stripKeyword kwAgainst r3a with
          | some r4 => [kwWhat, kwIs, kwEffective, kwAgainst] ++ qNameTail (r4.dropWhile cIsSpace)
          | none => totalOrGeralt [kwWhat, kwIs, kwEffective] r3a input

/-- C++ `CommandParser::cleanInputLine`: drop one trailing newline, trim
leading whitespace, trim trailing whitespace. -/
def cleanInputLine (input : List Char) : List Char :=
  let c1 := if input.getLast? = some '\n' then input.dropLast else input
  let c2 := c1.dropWhile cIsSpace
  trimTrailing c2

/-! ### Sanity checks of the tokenizer embedding against the C++ behavior -/

theorem tokenize_loot_example :
    tokenizeInput (str "Geralt loots 4 Quebrith, 2 Rebis") =
      [kwGeralt, kwLoots, ['4'], str "Quebrith", strComma, ['2'], str "Rebis"] := by
  decide

theorem tokenize_formula_example :
    tokenizeInput (str "Geralt learns Black Blood potion consists of 2 Rebis, 3 Vitriol") =
      [kwGeralt, kwLearns, str "Black Blood", kwPotion, kwConsists, kwOf,
       ['2'], str "Rebis", strComma, ['3'], str "Vitriol"] := by
  decide

theorem tokenize_effectiveness_example :
    tokenizeInput (str "Geralt learns Igni sign is effective against Drowner") =
      [kwGeralt, kwLearns, str "Igni", kwSign, kwIs, kwEffective, kwAgainst, str "Drowner"] := by
  decide

theorem tokenize_alchemy_query_example :
    tokenizeInput (str "What is in Black Blood?") =
      [kwWhat, kwIs, kwIn, str "Black Blood", strQ] := by
  decide

theorem tokenize_total_example :
    tokenizeInput (str "Total ingredient?") = [kwTotal, strIngredient, strQ] := by
  decide

/-! ## Shared validation predicates (C++ CommandParser lines 675-778) -/

/-- Numeric value of a digit string (the mathematical value `stoi` computes
when it does not throw). -/
def digitsVal (t : List Char) : Nat :=
  t.foldl (fun a c => a * 10 + (c.toNat - 48)) 0

/-- C++ `CommandParser::isPositiveInteger`: nonempty, no leading zero (except
a lone "0"), all digits, and `stoi(token) > 0`.  The numeric comparison is
modelled over unbounded naturals; `isPositiveIntegerRun` below models the
fact that the `stoi` call throws for values above `INT_MAX`. -/
def isPositiveInteger (token : List Char) : Bool :=
  if token = [] then false
  else if token.headD ' ' = '0' ∧ token.length > 1 then false
  else if ¬ (token.all cIsDigit = true) then false
  else decide (digitsVal token > 0)

def intMax : Nat := 2147483647

/-- Run of `isPositiveInteger` with the `stoi` exception made explicit:
`none` models the uncaught `std::out_of_range` thrown by `stoi` when the
all-digit token's value exceeds `INT_MAX`, which aborts the program. -/
def isPositiveIntegerRun (token : List Char) : Option Bool :=
  if token = [] then some false
  else if token.headD ' ' = '0' ∧ token.length > 1 then some false
  else if ¬ (token.all cIsDigit = true) then some false
  else if digitsVal token > intMax then none
  else some (decide (digitsVal token > 0))

/-- C++ `CommandParser::isAlphabeticOnly`. -/
def isAlphabeticOnly (token : List Char) : Bool :=
  !(token = []) && token.all cIsAlpha

/-- Body of C++ `CommandParser::isValidPotionNameToken` (and the identical
inline loop in `isBrewAction`): letters and single spaces, no two
consecutive spaces; `lastSp` is the `lastWasSpace` flag. -/
def potionNameOk : Bool → List Char → Bool
  | _, [] => true
  | lastSp, c :: rest =>
    if c = ' ' then (if lastSp then false else potionNameOk true rest)
    else if ¬ (cIsAlpha c = true) then false
    else potionNameOk false rest

/-- C++ `CommandParser::isValidPotionNameToken` (adds the nonempty check). -/
def isValidPotionNameToken (token : List Char) : Bool :=
  !(token = []) && potionNameOk false token

/-- Adjacent pair of comma tokens somewhere in the list. -/
def commaAdjacent : List (List Char) → Bool
  | a :: b :: rest => (decide (a = strComma) && decide (b = strComma)) || commaAdjacent (b :: rest)
  | _ => false

/-- C++ `CommandParser::hasCommaSpacingError`: some comma token is first,
last, or adjacent to another comma. -/
def hasCommaSpacingError (t : List (List Char)) : Bool :=
  match t with
  | [] => false
  | x :: _ =>
    decide (x = strComma) || decide (t.getLast? = some strComma) || commaAdjacent t

/-- Token at index `i` (vector indexing; out-of-range reads — which are
undefined behavior in the C++ — yield `[]`, a value no keyword equals). -/
def tkAt (t : List (List Char)) (i : Nat) : List Char :=
  t.getD i []

/-! ## The ten shape-checkers (C++ CommandParser lines 787-1297)

Each C++ checker is a chain of early `return false` guards; these are
transcribed as conjunctions of the non-failing conditions. -/

mutual

/-- Quantity/name pair loop of `isLootAction` (lines 803-826), acting on
the tokens from index 2 on, rendered as a three-state machine consuming one
token per step: `lootQty` expects a quantity, `lootName` a name, `lootSep`
an optional comma (a comma must be followed by more input; with no comma
the loop re-enters the quantity state on the same token, which is inlined
here as `isPositiveInteger c && lootName rest`). -/
def lootQty : List (List Char) → Bool
  | [] => true
  | q :: rest => isPositiveInteger q && lootName rest

def lootName : List (List Char) → Bool
  | [] => false
  | nm :: rest => isAlphabeticOnly nm && lootSep rest

def lootSep : List (List Char) → Bool
  | [] => true
  | c :: rest =>
    if c = strComma then (match rest with | [] => false | _ :: _ => lootQty rest)
    else isPositiveInteger c && lootName rest

end

/-- C++ `CommandParser::isLootAction`. -/
def isLootAction (input : List Char) : Bool :=
  let t := tokenizeInput input
  !hasCommaSpacingError t && decide (4 ≤ t.length) &&
  decide (tkAt t 0 = kwGeralt) && decide (tkAt t 1 = kwLoots) &&
  lootQty (t.drop 2)

/-- First index `≥ start` holding token `w` (the C++ linear searches for
"for", "potion", "consists", "of" starting at index 2). -/
def findTokIdxAux (w : List Char) : List (List Char) → Nat → Option Nat
  | [], _ => none
  | x :: rest, i => if x = w then some i else findTokIdxAux w rest (i + 1)

def findForIdx (t : List (List Char)) : Option Nat :=
  findTokIdxAux kwFor (t.drop 2) 2

/-- Trophy-list loop of `isTradeAction` (lines 864-903) on the token region
strictly between "trades" and "for".  The `Bool` is `expectingQuantity`;
acceptance requires the region to end with the literal `trophy`
immediately before "for" (`lastTrophyHasKeyword`). -/
def trophyLoop : Bool → List (List Char) → Bool
  | _, [] => false
  | true, q :: rest => isPositiveInteger q && trophyLoop false rest
  | false, nm :: rest =>
    isAlphabeticOnly nm &&
    match rest with
    | [tr] => decide (tr = kwTrophy)
    | c :: rest2 => decide (c = strComma) && trophyLoop true rest2
    | [] => false

/-- Ingredient-list loop of `isTradeAction` (lines 908-964) on the tokens
after "for"; pairs must be separated by commas, no trailing comma, and the
loop must not end expecting another quantity. -/
def ingLoop : Bool → List (List Char) → Bool
  | exp, [] => !exp
  | true, q :: rest =>
    isPositiveInteger q && (match rest with | [] => false | _ :: _ => ingLoop false rest)
  | false, nm :: rest =>
    isAlphabeticOnly nm &&
    match rest with
    | [] => true
    | c :: rest2 =>
      decide (c = strComma) && (match rest2 with | [] => false | _ :: _ => ingLoop true rest2)

/-- C++ `CommandParser::isTradeAction`. -/
def isTradeAction (input : List Char) : Bool :=
  let t := tokenizeInput input
  !hasCommaSpacingError t && decide (2 ≤ t.length) &&
  decide (tkAt t 0 = kwGeralt) && decide (tkAt t 1 = kwTrades) &&
  match findForIdx t with
  | none => false
  | some f =>
    decide (4 < f) && decide (f + 2 < t.length) &&
    trophyLoop true ((t.drop 2).take (f - 2)) && ingLoop true (t.drop (f + 1))

/-- C++ `CommandParser::isBrewAction` (the potion-name loop is the literal
body of `isValidPotionNameToken` without a nonemptiness check). -/
def isBrewAction (input : List Char) : Bool :=
  let t := tokenizeInput input
  decide (3 ≤ t.length) &&
  decide (tkAt t 0 = kwGeralt) && decide (tkAt t 1 = kwBrews) &&
  potionNameOk false (tkAt t 2)

/-- C++ `CommandParser::isEffectivenessKnowledge`.  The C++ reads
`tokens[5]` and `tokens[6]` guarded only by `tokens.size() >= 5`; the
out-of-bounds reads (undefined behavior, see claim C3) are modelled as
yielding `[]`. -/
def isEffectivenessKnowledge (input : List Char) : Bool :=
  let t := tokenizeInput input
  decide (5 ≤ t.length) &&
  decide (tkAt t 0 = kwGeralt) && decide (tkAt t 1 = kwLearns) &&
  (decide (tkAt t 3 = kwPotion) || decide (tkAt t 3 = kwSign)) &&
  decide (tkAt t 4 = kwIs) && decide (tkAt t 5 = kwEffective) &&
  decide (tkAt t 6 = kwAgainst) &&
  decide (t.length = 8) && isAlphabeticOnly (tkAt t 7) &&
  (if tkAt t 3 = kwSign then isAlphabeticOnly (tkAt t 2)
   else isValidPotionNameToken (tkAt t 2))

/-- Ingredient-list loop of `isPotionFormulaKnowledge` (lines 1118-1147):
pairs must be separated by commas (a non-comma after a pair rejects), no
trailing comma. -/
def formulaList : List (List Char) → Bool
  | [] => true
  | q :: rest =>
    isPositiveInteger q &&
    match rest with
    | [] => false
    | nm :: rest2 =>
      isAlphabeticOnly nm &&
      match rest2 with
      | [] => true
      | c :: rest3 =>
        decide (c = strComma) && (match rest3 with | [] => false | _ :: _ => formulaList rest3)

/-- C++ `CommandParser::isPotionFormulaKnowledge`.  The `else if` chain
finding the keyword indices computes the first occurrence of each of
"potion", "consists", "of" from index 2 on. -/
def isPotionFormulaKnowledge (input : List Char) : Bool :=
  let t := tokenizeInput input
  decide (7 ≤ t.length) &&
  !hasCommaSpacingError t &&
  !(decide (tkAt t (t.length - 1) = strComma)) &&
  decide (tkAt t 0 = kwGeralt) && decide (tkAt t 1 = kwLearns) &&
  match findTokIdxAux kwPotion (t.drop 2) 2, findTokIdxAux kwConsists (t.drop 2) 2,
        findTokIdxAux kwOf (t.drop 2) 2 with
  | some pIdx, some cIdx, some oIdx =>
    decide (1 < pIdx ∧ pIdx < cIdx ∧ cIdx < oIdx) &&
    ((t.drop 2).take (pIdx - 2)).all isValidPotionNameToken &&
    decide (pIdx + 1 = cIdx ∧ cIdx + 1 = oIdx) &&
    formulaList (t.drop (oIdx + 1))
  | _, _, _ => false

/-- C++ `CommandParser::isEncounterSentence`. -/
def isEncounterSentence (input : List Char) : Bool :=
  let t := tokenizeInput input
  decide (t.length = 4) &&
  decide (tkAt t 0 = kwGeralt) && decide (tkAt t 1 = kwEncounters) &&
  decide (tkAt t 2 = kwA) && isAlphabeticOnly (tkAt t 3)

/-- C++ `CommandParser::isInventoryQuery`; the second component models the
`isSpecific` out-parameter as read by the caller (it is consulted only
when the first component is `true`). -/
def isInventoryQuery (input : List Char) : Bool × Bool :=
  let t := tokenizeInput input
  let ok :=
    decide (3 ≤ t.length) && decide (t.length ≤ 4) &&
    decide (tkAt t (t.length - 1) = strQ) &&
    decide (tkAt t 0 = kwTotal) &&
    (decide (tkAt t 1 = strIngredient) || decide (tkAt t 1 = kwPotion) ||
     decide (tkAt t 1 = kwTrophy)) &&
    (if t.length = 4 then
       (if tkAt t 1 = strIngredient ∨ tkAt t 1 = kwTrophy then isAlphabeticOnly (tkAt t 2)
        else isValidPotionNameToken (tkAt t 2))
     else true)
  (ok, decide (t.length = 4))

/-- C++ `CommandParser::isBestiaryQuery`. -/
def isBestiaryQuery (input : List Char) : Bool :=
  let t := tokenizeInput input
  decide (t.length = 6) &&
  decide (tkAt t 0 = kwWhat) && decide (tkAt t 1 = kwIs) &&
  decide (tkAt t 2 = kwEffective) && decide (tkAt t 3 = kwAgainst) &&
  isAlphabeticOnly (tkAt t 4) && decide (tkAt t 5 = strQ)

/-- C++ `CommandParser::isAlchemyQuery`. -/
def isAlchemyQuery (input : List Char) : Bool :=
  let t := tokenizeInput input
  decide (5 ≤ t.length) &&
  decide (tkAt t 0 = kwWhat) && decide (tkAt t 1 = kwIs) && decide (tkAt t 2 = kwIn) &&
  decide (tkAt t (t.length - 1) = strQ) &&
  ((t.drop 3).take (t.length - 1 - 3)).all isValidPotionNameToken

/-- C++ `CommandParser::isExitCommand`: exact raw-string comparison. -/
def isExitCommand (input : List Char) : Bool :=
  decide (input = strExit)

/-! ## Classifier (C++ `CommandParser::isValidCommand`) -/

inductive CommandType where
  | actionLoot
  | actionTrade
  | actionBrew
  | knowledgeEffectiveness
  | knowledgePotionFormula
  | encounter
  | querySpecificInventory
  | queryAllInventory
  | queryBestiary
  | queryAlchemy
  | exitCommand
deriving DecidableEq, Repr

/-- C++ `CommandParser::isValidCommand`: try the checkers in the fixed
order and commit to the first success; `none` models the
`INVALID_COMMAND` / `return false` outcome. -/
def isValidCommand (input : List Char) : Option CommandType :=
  if isLootAction input then some .actionLoot
  else if isTradeAction input then some .actionTrade
  else if isBrewAction input then some .actionBrew
  else if isEffectivenessKnowledge input then some .knowledgeEffectiveness
  else if isPotionFormulaKnowledge input then some .knowledgePotionFormula
  else if isEncounterSentence input then some .encounter
  else if (isInventoryQuery input).1 then
    some (if (isInventoryQuery input).2 then .querySpecificInventory else .queryAllInventory)
  else if isBestiaryQuery input then some .queryBestiary
  else if isAlchemyQuery input then some .queryAlchemy
  else if isExitCommand input then some .exitCommand
  else none

/-! ### Sanity checks of the classifier embedding -/

theorem classify_loot_example :
    isValidCommand (str "Geralt loots 4 Quebrith, 2 Rebis") = some .actionLoot := by
  decide

theorem classify_encounter_example :
    isValidCommand (str "Geralt encounters a Bruxa") = some .encounter := by
  decide

theorem classify_trade_example :
    isValidCommand (str "Geralt trades 2 Drowner trophy for 5 Rebis") = some .actionTrade := by
  decide

theorem classify_bestiary_example :
    isValidCommand (str "What is effective against Bruxa?") = some .queryBestiary := by
  decide

theorem classify_exit_example :
    isValidCommand (str "Exit") = some .exitCommand := by
  decide

/-! ## Registries (Inventory.cpp, AlchemyKnowledge.cpp, Bestiary.cpp)

`std::map<string,int>` is modelled as an association list with a
default-0 lookup.  `operator[]` insertion of a default entry is modelled
faithfully (`mSet` with the unchanged value in the failing branch of the
remove operations).  Map iteration order only ever reaches the output
through an explicit sort, so association-list order is unobservable.
Arithmetic on quantities is modelled over unbounded `Int` (the spec's
stated non-goal: no numeric overflow handling). -/

def mGet : List (List Char × Int) → List Char → Int
  | [], _ => 0
  | (k2, v) :: rest, k => if k2 = k then v else mGet rest k

def mSet : List (List Char × Int) → List Char → Int → List (List Char × Int)
  | [], k, v => [(k, v)]
  | (k2, v2) :: rest, k, v =>
    if k2 = k then (k2, v) :: rest else (k2, v2) :: mSet rest k v

/-- `Inventory::addIngredient` / `addPotion` / `addTrophy`:
`m[name] += quantity`. -/
def mAdd (m : List (List Char × Int)) (k : List Char) (v : Int) : List (List Char × Int) :=
  mSet m k (mGet m k + v)

/-- `Inventory::removeIngredient` / `removePotion` / `removeTrophy`:
subtract only when the stored quantity suffices, otherwise leave the count
unchanged (the `operator[]` access still materializes the entry). -/
def mRemove (m : List (List Char × Int)) (k : List Char) (q : Int) : List (List Char × Int) :=
  if q ≤ mGet m k then mSet m k (mGet m k - q) else mSet m k (mGet m k)

/-- Alchemy formula lookup (`AlchemyKnowledge::getPotion` via `map::find`). -/
def aGet : List (List Char × (List (List Char) × List Int)) → List Char →
    Option (List (List Char) × List Int)
  | [], _ => none
  | (k2, v) :: rest, k => if k2 = k then some v else aGet rest k

def aSet : List (List Char × (List (List Char) × List Int)) → List Char →
    (List (List Char) × List Int) → List (List Char × (List (List Char) × List Int))
  | [], k, v => [(k, v)]
  | (k2, v2) :: rest, k, v =>
    if k2 = k then (k2, v) :: rest else (k2, v2) :: aSet rest k v

/-- Bestiary lookup (`Bestiary::getBeast`); a beast is its pair of
(effectiveSigns, effectivePotions) lists. -/
def bGet : List (List Char × (List (List Char) × List (List Char))) → List Char →
    Option (List (List Char) × List (List Char))
  | [], _ => none
  | (k2, v) :: rest, k => if k2 = k then some v else bGet rest k

def bSet : List (List Char × (List (List Char) × List (List Char))) → List Char →
    (List (List Char) × List (List Char)) →
    List (List Char × (List (List Char) × List (List Char)))
  | [], k, v => [(k, v)]
  | (k2, v2) :: rest, k, v =>
    if k2 = k then (k2, v) :: rest else (k2, v2) :: bSet rest k v

/-- `Bestiary::addEffectiveness`: ensure the beast exists, then append the
counter to the appropriate list unless already present
(`Beast::addEffectiveSign` / `addEffectivePotion`). -/
def bAddEffectiveness (b : List (List Char × (List (List Char) × List (List Char))))
    (monster counter : List Char) (isSgn : Bool) :
    List (List Char × (List (List Char) × List (List Char))) :=
  let cur := (bGet b monster).getD ([], [])
  let cur2 :=
    if isSgn then
      if counter ∈ cur.1 then cur else (cur.1 ++ [counter], cur.2)
    else
      if counter ∈ cur.2 then cur else (cur.1, cur.2 ++ [counter])
  bSet b monster cur2

/-- The whole program state: the three inventory maps, the alchemy
knowledge (potion formulas and signs) and the bestiary. -/
structure WTState where
  invIngredients : List (List Char × Int)
  invPotions : List (List Char × Int)
  invTrophies : List (List Char × Int)
  alchemyPotions : List (List Char × (List (List Char) × List Int))
  alchemySigns : List (List Char)
  bestiary : List (List Char × (List (List Char) × List (List Char)))
deriving DecidableEq

def initState : WTState :=
  { invIngredients := [], invPotions := [], invTrophies := [],
    alchemyPotions := [], alchemySigns := [], bestiary := [] }

/-! ## Output formatting helpers -/

/-- `std::string operator<` (lexicographic by character). -/
def lexLt : List Char → List Char → Bool
  | [], [] => false
  | [], _ :: _ => true
  | _ :: _, [] => false
  | a :: as, b :: bs => if a < b then true else if b < a then false else lexLt as bs

def insSorted {α : Type} (lt : α → α → Bool) (x : α) : List α → List α
  | [] => [x]
  | y :: ys => if lt y x then y :: insSorted lt x ys else x :: y :: ys

/-- Sorting used to model `std::sort` (all comparators below are strict
total orders on the values that occur, so the result is the same). -/
def sortByB {α : Type} (lt : α → α → Bool) (l : List α) : List α :=
  l.foldr (insSorted lt) []

/-- `std::pair<string,int>` default `<`: name, then quantity. -/
def namePairLt (a b : List Char × Int) : Bool :=
  lexLt a.1 b.1 || (decide (a.1 = b.1) && decide (a.2 < b.2))

/-- Comparator of `AlchemyKnowledge::getPotionIngredients`: quantity
descending, then name ascending. -/
def qtyDescLt (a b : List Char × Int) : Bool :=
  decide (b.2 < a.2) || (decide (a.2 = b.2) && lexLt a.1 b.1)

/-- Decimal digits of a natural number (`std::to_string`). -/
def natToStr (n : Nat) : List Char :=
  if h : n < 10 then [Char.ofNat (48 + n)]
  else natToStr (n / 10) ++ [Char.ofNat (48 + n % 10)]
termination_by n
decreasing_by exact Nat.div_lt_self (by omega) (by omega)

def intToStr (v : Int) : List Char :=
  if v < 0 then '-' :: natToStr (-v).toNat else natToStr v.toNat

/-- Format a quantity/name pair list as `"q1 n1, q2 n2, ..."`. -/
def fmtPairs (ps : List (List Char × Int)) : List Char :=
  List.intercalate (str ", ") (ps.map (fun p => intToStr p.2 ++ [' '] ++ p.1))

/-- `Inventory::getAllIngredients` / `getAllPotions` / `getAllTrophies`:
entries with positive quantity, sorted by name (then quantity). -/
def getAllStr (m : List (List Char × Int)) : List Char :=
  fmtPairs (sortByB namePairLt (m.filter (fun p => decide (0 < p.2))))

/-- `AlchemyKnowledge::getPotionIngredients`. -/
def getPotionIngredientsStr (al : List (List Char × (List (List Char) × List Int)))
    (name : List Char) : List Char :=
  match aGet al name with
  | none => []
  | some (ns, qs) => if ns = [] then [] else fmtPairs (sortByB qtyDescLt (ns.zip qs))

/-- `Bestiary::getEffectiveCounters`: potions then signs, sorted. -/
def getEffectiveCountersStr (b : List (List Char × (List (List Char) × List (List Char))))
    (name : List Char) : List Char :=
  match bGet b name with
  | none => []
  | some (sgs, pts) => List.intercalate (str ", ") (sortByB lexLt (pts ++ sgs))

/-! ## Command execution (WitcherTracker.cpp) -/

/-- Value parsed by `stoi` from a token (leading digit run); every executor
quantity is of this form and hence non-negative. -/
def stoiNat (t : List Char) : Nat :=
  digitsVal (t.takeWhile cIsDigit)

def joinSpace (ts : List (List Char)) : List Char :=
  List.intercalate [' '] ts

/-- Skip one leading comma token (the `if (tokens[i] == ",") i++` step of
the executor pair loops). -/
def dropLeadComma : List (List Char) → List (List Char)
  | c :: r => if c = strComma then r else c :: r
  | [] => []

/-- Skip one leading "trophy" token (`executeTradeAction`). -/
def dropLeadTrophy : List (List Char) → List (List Char)
  | c :: r => if c = kwTrophy then r else c :: r
  | [] => []

theorem dropLeadComma_length_le (l : List (List Char)) :
    (dropLeadComma l).length ≤ l.length := by
  cases l with
  | nil => simp [dropLeadComma]
  | cons c r => simp only [dropLeadComma]; split <;> simp

theorem dropLeadTrophy_length_le (l : List (List Char)) :
    (dropLeadTrophy l).length ≤ l.length := by
  cases l with
  | nil => simp [dropLeadTrophy]
  | cons c r => simp only [dropLeadTrophy]; split <;> simp

/-- (name, quantity) pairs of `executeLootAction` (and of the ingredient
side of `executeTradeAction` and of `executeFormulaKnowledge`, whose loops
are identical): quantity token, name token, optional comma. -/
def lootPairsOf : List (List Char) → List (List Char × Int)
  | q :: nm :: rest => (nm, (stoiNat q : Int)) :: lootPairsOf (dropLeadComma rest)
  | _ => []
termination_by l => l.length
decreasing_by
  have := dropLeadComma_length_le rest
  simp_wf
  omega

/-- (name, quantity) pairs of the trophy side of `executeTradeAction`:
quantity token, name token, optional "trophy" keyword, optional comma. -/
def tradePairsOf : List (List Char) → List (List Char × Int)
  | q :: nm :: rest => (nm, (stoiNat q : Int)) :: tradePairsOf (dropLeadComma (dropLeadTrophy rest))
  | _ => []
termination_by l => l.length
decreasing_by
  have h1 := dropLeadTrophy_length_le rest
  have h2 := dropLeadComma_length_le (dropLeadTrophy rest)
  simp_wf
  omega

/-- `WitcherTracker::executeLootAction`. -/
def executeLootAction (st : WTState) (t : List (List Char)) : WTState × List (List Char) :=
  let pairs := lootPairsOf (t.drop 2)
  ({ st with invIngredients := pairs.foldl (fun m p => mAdd m p.1 p.2) st.invIngredients },
   [str "Alchemy ingredients obtained"])

/-- `WitcherTracker::executeTradeAction` (the `for` search initializes
`forIndex = 0` and takes the first match from index 2). -/
def executeTradeAction (st : WTState) (t : List (List Char)) : WTState × List (List Char) :=
  let f := (findForIdx t).getD 0
  let required := tradePairsOf ((t.drop 2).take (f - 2))
  let gained := lootPairsOf (t.drop (f + 1))
  let hasEnough := required.all (fun p => decide (p.2 ≤ mGet st.invTrophies p.1))
  if hasEnough then
    ({ st with
        invTrophies := required.foldl (fun m p => mRemove m p.1 p.2) st.invTrophies,
        invIngredients := gained.foldl (fun m p => mAdd m p.1 p.2) st.invIngredients },
     [str "Trade successful"])
  else
    (st, [str "Not enough trophies"])

/-- `WitcherTracker::executeBrewAction`. -/
def executeBrewAction (st : WTState) (t : List (List Char)) : WTState × List (List Char) :=
  let potionName := joinSpace (t.drop 2)
  match aGet st.alchemyPotions potionName with
  | none => (st, [str "No formula for " ++ potionName])
  | some (ns, qs) =>
    if ns = [] then (st, [str "No formula for " ++ potionName])
    else
      let needed := ns.zip qs
      let hasEnough := needed.all (fun p => decide (p.2 ≤ mGet st.invIngredients p.1))
      if hasEnough then
        ({ st with
            invIngredients := needed.foldl (fun m p => mRemove m p.1 p.2) st.invIngredients,
            invPotions := mAdd st.invPotions potionName 1 },
         [str "Alchemy item created: " ++ potionName])
      else
        (st, [str "Not enough ingredients"])

/-- Index scan of `executeEffectivenessKnowledge` (lines 291-309): records
the last "is" before the first "against" (which breaks the loop) and
whether a "sign" token was seen; indices default to 0. -/
def scanIA : List (List Char) → Nat → Nat → Nat → Bool → (Nat × Nat × Bool)
  | [], _, isIdx, agIdx, sgn => (isIdx, agIdx, sgn)
  | x :: rest, i, isIdx, agIdx, sgn =>
    if x = kwIs then scanIA rest (i + 1) i agIdx sgn
    else if x = kwAgainst then (isIdx, i, sgn)
    else if x = kwSign then scanIA rest (i + 1) isIdx agIdx true
    else scanIA rest (i + 1) isIdx agIdx sgn

/-- `WitcherTracker::executeEffectivenessKnowledge`. -/
def executeEffectivenessKnowledge (st : WTState) (t : List (List Char)) :
    WTState × List (List Char) :=
  let sca := scanIA (t.drop 2) 2 0 0 false
  let isIdx := sca.1
  let agIdx := sca.2.1
  let sgn := sca.2.2
  let counterName := joinSpace (((t.drop 2).take (isIdx - 2)).filter
      (fun x => !(decide (x = kwSign)) && !(decide (x = kwPotion))))
  let monsterName := joinSpace (t.drop (agIdx + 1))
  let beast := bGet st.bestiary monsterName
  let alreadyKnown :=
    match beast with
    | none => false
    | some (sgs, pts) => if sgn then decide (counterName ∈ sgs) else decide (counterName ∈ pts)
  if alreadyKnown then
    (st, [str "Already known effectiveness"])
  else
    ({ st with
        bestiary := bAddEffectiveness st.bestiary monsterName counterName sgn,
        alchemySigns :=
          if sgn then
            (if counterName ∈ st.alchemySigns then st.alchemySigns
             else st.alchemySigns ++ [counterName])
          else st.alchemySigns },
     [if beast.isSome then str "Bestiary entry updated: " ++ monsterName
      else str "New bestiary entry added: " ++ monsterName])

/-- Index scan of `executeFormulaKnowledge` (lines 394-407): the last
"potion" before the first "of" (which breaks the loop); defaults 0. -/
def scanPO : List (List Char) → Nat → Nat → (Nat × Nat)
  | [], _, pIdx => (pIdx, 0)
  | x :: rest, i, pIdx =>
    if x = kwPotion then scanPO rest (i + 1) i
    else if x = kwOf then (pIdx, i)
    else scanPO rest (i + 1) pIdx

/-- `WitcherTracker::executeFormulaKnowledge`. -/
def executeFormulaKnowledge (st : WTState) (t : List (List Char)) :
    WTState × List (List Char) :=
  let sca := scanPO (t.drop 2) 2 0
  let pIdx := sca.1
  let oIdx := sca.2
  let potionName := joinSpace ((t.drop 2).take (pIdx - 2))
  if (aGet st.alchemyPotions potionName).isSome then
    (st, [str "Already known formula"])
  else
    let pairs := lootPairsOf (t.drop (oIdx + 1))
    ({ st with
        alchemyPotions :=
          aSet st.alchemyPotions potionName (pairs.map Prod.fst, pairs.map Prod.snd) },
     [str "New alchemy formula obtained: " ++ potionName])

/-- `WitcherTracker::executeEncounter`. -/
def executeEncounter (st : WTState) (t : List (List Char)) : WTState × List (List Char) :=
  let monsterName := joinSpace (t.drop 3)
  match bGet st.bestiary monsterName with
  | none => (st, [str "Geralt is unprepared and barely escapes with his life"])
  | some (sgs, pts) =>
    let hasCounter := pts.any (fun p => decide (0 < mGet st.invPotions p)) || !(sgs = [])
    if hasCounter then
      ({ st with
          invPotions := pts.foldl
            (fun m p => if 0 < mGet m p then mRemove m p 1 else m) st.invPotions,
          invTrophies := mAdd st.invTrophies monsterName 1 },
       [str "Geralt defeats " ++ monsterName])
    else
      (st, [str "Geralt is unprepared and barely escapes with his life"])

/-- `WitcherTracker::executeSpecificInventoryQuery`. -/
def executeSpecificInventoryQuery (st : WTState) (t : List (List Char)) :
    WTState × List (List Char) :=
  let category := tkAt t 1
  let itemName := joinSpace ((t.drop 2).take (t.length - 1 - 2))
  let qty : Int :=
    if category = strIngredient then mGet st.invIngredients itemName
    else if category = kwPotion then mGet st.invPotions itemName
    else if category = kwTrophy then mGet st.invTrophies itemName
    else 0
  (st, [intToStr qty])

/-- `WitcherTracker::executeAllInventoryQuery`. -/
def executeAllInventoryQuery (st : WTState) (t : List (List Char)) :
    WTState × List (List Char) :=
  let category := tkAt t 1
  let result :=
    if category = strIngredient then getAllStr st.invIngredients
    else if category = kwPotion then getAllStr st.invPotions
    else if category = kwTrophy then getAllStr st.invTrophies
    else []
  (st, [if result = [] then str "None" else result])

/-- `WitcherTracker::executeBestiaryQuery`. -/
def executeBestiaryQuery (st : WTState) (t : List (List Char)) : WTState × List (List Char) :=
  let monsterName := joinSpace ((t.drop 4).take (t.length - 1 - 4))
  let result := getEffectiveCountersStr st.bestiary monsterName
  (st, [if result = [] then str "No knowledge of " ++ monsterName else result])

/-- `WitcherTracker::executeAlchemyQuery`. -/
def executeAlchemyQuery (st : WTState) (t : List (List Char)) : WTState × List (List Char) :=
  let potionName := joinSpace ((t.drop 3).take (t.length - 1 - 3))
  let result := getPotionIngredientsStr st.alchemyPotions potionName
  (st, [if result = [] then str "No formula for " ++ potionName else result])

/-- `WitcherTracker::executeCommand` dispatch. -/
def executeCommand (st : WTState) (input : List Char) (ct : CommandType) :
    WTState × List (List Char) :=
  let t := tokenizeInput input
  match ct with
  | .actionLoot => executeLootAction st t
  | .actionTrade => executeTradeAction st t
  | .actionBrew => executeBrewAction st t
  | .knowledgeEffectiveness => executeEffectivenessKnowledge st t
  | .knowledgePotionFormula => executeFormulaKnowledge st t
  | .encounter => executeEncounter st t
  | .querySpecificInventory => executeSpecificInventoryQuery st t
  | .queryAllInventory => executeAllInventoryQuery st t
  | .queryBestiary => executeBestiaryQuery st t
  | .queryAlchemy => executeAlchemyQuery st t
  | .exitCommand => (st, [])

/-- One iteration of the `main` loop body for a line that is processed:
`WitcherTracker::executeLine` plus `main`'s printing of `INVALID` when it
returns -1.  Result: new state, lines printed, return code. -/
def processLine (st : WTState) (line : List Char) : WTState × List (List Char) × Int :=
  let cleaned := cleanInputLine line
  if cleaned = [] then (st, [strINVALID], -1)
  else
    match isValidCommand cleaned with
    | some ct =>
      let r := executeCommand st cleaned ct
      (r.1, r.2, 0)
    | none => (st, [strINVALID], -1)

/-- State after processing a sequence of input lines from a start state. -/
def runLines (st : WTState) (lines : List (List Char)) : WTState :=
  lines.foldl (fun s l => (processLine s l).1) st

/-! ## Claim-specific definitions -/

/-- Guard under which C++ `isEffectivenessKnowledge` evaluates
`tokens[5] != "effective"`: the `tokens.size() >= 5` / `tokens[0]` /
`tokens[1]` guard passed, `tokens[3]` is "potion" or "sign", and
`tokens[4] != "is"` is false (so the `||` chain evaluates its next
operand, reading `tokens[5]`). -/
def effReachesIdx5 (input : List Char) : Bool :=
  let t := tokenizeInput input
  decide (5 ≤ t.length) && decide (tkAt t 0 = kwGeralt) && decide (tkAt t 1 = kwLearns) &&
  (decide (tkAt t 3 = kwPotion) || decide (tkAt t 3 = kwSign)) && decide (tkAt t 4 = kwIs)

/-- The spec's PositiveInteger predicate: nonempty, all decimal digits, no
leading zero (except a lone "0"), and denoted value greater than zero. -/
def specPositiveInteger (token : List Char) : Bool :=
  !(decide (token = [])) && token.all cIsDigit &&
  !(decide (token.headD ' ' = '0') && decide (1 < token.length)) &&
  decide (0 < digitsVal token)

/-- Join a token sequence with single spaces, attaching each comma token to
its preceding token (the spec's canonical "clean" rendering of a token
sequence). -/
def joinRest : List (List Char) → List Char
  | [] => []
  | t :: ts => (if t = strComma then t else ' ' :: t) ++ joinRest ts

def joinTokens : List (List Char) → List Char
  | [] => []
  | t :: ts => t ++ joinRest ts

/-! ## Claims C6, C3, C4, C7, C1, C9 -/

/-- Claim C6: the three boundary lines — a doubled comma, a quantity with a
leading zero, and a doubled space inside a brewed potion name — are all
classified Invalid (accepted by no shape-checker). -/
theorem c6_boundary_rejections :
    isValidCommand (str "Geralt loots 4 Quebrith,, 2 Rebis") = none ∧
    isValidCommand (str "Geralt loots 04 Quebrith") = none ∧
    isValidCommand (str "Geralt brews Black  Blood") = none := by
  decide

/-- Claim C3 (refuted; code bug): on the line "Geralt learns X sign is" the
learns-branch tokenizer emits exactly the five tokens
[Geralt, learns, X, sign, is]; the guard of `isEffectivenessKnowledge`
(`tokens.size() >= 5`, prefix keywords, `tokens[3] ∈ {sign, potion}` and
`tokens[4] == "is"`) passes, so the C++ code evaluates `tokens[5]` --- an
out-of-bounds read of a five-element vector, contradicting the claim that
every read index stays strictly below the token count. -/
theorem c3_out_of_bounds_read :
    tokenizeInput (str "Geralt learns X sign is") =
      [kwGeralt, kwLearns, ['X'], kwSign, kwIs] ∧
    effReachesIdx5 (str "Geralt learns X sign is") = true ∧
    ¬ 5 < (tokenizeInput (str "Geralt learns X sign is")).length := by
  decide

/-- Claim C4 (refuted; code bug): the all-digit token "9999999999" satisfies
the spec's PositiveInteger shape checks up to the value test, but its value
exceeds `INT_MAX`, so the unguarded `stoi` call in `isPositiveInteger`
throws an uncaught `std::out_of_range` (modelled as `none`) instead of
returning `false`; the token is reachable as `tokens[2]` of the
1024-character-bounded line "Geralt loots 9999999999 Rebis", whose
classification therefore aborts rather than completing. -/
theorem c4_stoi_overflow_aborts :
    specPositiveInteger (str "9999999999") = true ∧
    isPositiveIntegerRun (str "9999999999") = none ∧
    tkAt (tokenizeInput (str "Geralt loots 9999999999 Rebis")) 2 = str "9999999999" := by
  decide

/-- On every token where the modelled `stoi` run terminates normally, the
C++ `isPositiveInteger` agrees with the spec's PositiveInteger predicate. -/
theorem positiveIntegerRun_agrees_spec (token : List Char) (b : Bool)
    (h : isPositiveIntegerRun token = some b) : b = specPositiveInteger token := by
  unfold isPositiveIntegerRun at h
  by_cases he : token = []
  · rw [if_pos he] at h
    obtain rfl := Option.some.inj h
    subst he
    decide
  · rw [if_neg he] at h
    by_cases hz : token.headD ' ' = '0' ∧ token.length > 1
    · rw [if_pos hz] at h
      obtain rfl := Option.some.inj h
      unfold specPositiveInteger
      rw [decide_eq_true hz.1, decide_eq_true hz.2]
      simp
    · rw [if_neg hz] at h
      by_cases hd : ¬ token.all cIsDigit = true
      · rw [if_pos hd] at h
        obtain rfl := Option.some.inj h
        have hd2 : token.all cIsDigit = false := Bool.eq_false_iff.mpr hd
        unfold specPositiveInteger
        rw [hd2]
        simp
      · rw [if_neg hd] at h
        have hd2 : token.all cIsDigit = true := not_not.mp hd
        by_cases hbig : digitsVal token > intMax
        · rw [if_pos hbig] at h
          exact absurd h (by simp)
        · rw [if_neg hbig] at h
          obtain rfl := Option.some.inj h
          unfold specPositiveInteger
          have h1 : decide (token = []) = false := decide_eq_false he
          have h3 : (decide (token.headD ' ' = '0') && decide (1 < token.length)) = false := by
            rcases not_and_or.mp hz with hx | hx
            · rw [decide_eq_false hx]
              simp
            · rw [decide_eq_false hx]
              simp
          rw [h1, hd2, h3]
          simp

/-- Claim C7 counterexample: the whitespace-clean line
"Geralt learns X potion consists of , 2 a" tokenizes to nine tokens, but
re-tokenizing the single-space, comma-attached join of those tokens
("... consists of, 2 a") fails the "of" word-boundary check inside the
learns branch and yields only five tokens, so the tokenizer is not
idempotent on it. -/
theorem c7_counterexample :
    cleanInputLine (str "Geralt learns X potion consists of , 2 a") =
      str "Geralt learns X potion consists of , 2 a" ∧
    tokenizeInput (joinTokens (tokenizeInput (str "Geralt learns X potion consists of , 2 a"))) ≠
      tokenizeInput (str "Geralt learns X potion consists of , 2 a") := by
  decide

/-- Claim C7 (amended): for every input line that is already clean in the
sense of being literally equal to the single-space, comma-attached join of
its own emitted token sequence, re-running the tokenizer on that join
reproduces exactly the same token sequence. -/
theorem c7_idempotent_on_clean (input : List Char)
    (h : joinTokens (tokenizeInput input) = input) :
    tokenizeInput (joinTokens (tokenizeInput input)) = tokenizeInput input := by
  rw [h]

theorem c7_idempotent_on_clean_witness :
    joinTokens (tokenizeInput (str "Geralt loots 4 Quebrith, 2 Rebis")) =
      str "Geralt loots 4 Quebrith, 2 Rebis" ∧
    tokenizeInput (joinTokens (tokenizeInput (str "Geralt loots 4 Quebrith, 2 Rebis"))) =
      tokenizeInput (str "Geralt loots 4 Quebrith, 2 Rebis") :=
  ⟨by decide, c7_idempotent_on_clean (str "Geralt loots 4 Quebrith, 2 Rebis") (by decide)⟩

/-- Claim C1: a line classified Invalid (accepted by no shape-checker, i.e.
`isValidCommand` of the cleaned line yields `none`) leaves the whole
program state — all three inventories, the alchemy knowledge and the
bestiary — unchanged, prints exactly the literal INVALID marker, and
returns -1. -/
theorem c1_invalid_line_no_effect (st : WTState) (line : List Char)
    (h : isValidCommand (cleanInputLine line) = none) :
    processLine st line = (st, [strINVALID], -1) := by
  unfold processLine
  by_cases hc : cleanInputLine line = []
  · simp [hc]
  · simp [hc, h]

theorem c1_invalid_line_no_effect_witness :
    isValidCommand (cleanInputLine (str "open sesame")) = none ∧
    processLine initState (str "open sesame") = (initState, [strINVALID], -1) :=
  ⟨by decide, c1_invalid_line_no_effect initState (str "open sesame") (by decide)⟩

/-- Claim C9: classification is a pure function of the input line alone:
the accept/reject outcome of processing a line is identical under any two
registry states (hence independent of previously processed lines), and it
equals the state-free classification of the cleaned line. -/
theorem c9_classification_state_independent :
    (∀ (st1 st2 : WTState) (line : List Char),
        (processLine st1 line).2.2 = (processLine st2 line).2.2) ∧
    (∀ (st : WTState) (line : List Char),
        (processLine st line).2.2 =
          (if cleanInputLine line = [] then (-1 : Int)
           else match isValidCommand (cleanInputLine line) with
                | some _ => 0
                | none => -1)) := by
  have key : ∀ (st : WTState) (line : List Char),
      (processLine st line).2.2 =
        (if cleanInputLine line = [] then (-1 : Int)
         else match isValidCommand (cleanInputLine line) with
              | some _ => 0
              | none => -1) := by
    intro st line
    unfold processLine
    by_cases hc : cleanInputLine line = []
    · simp [hc]
    · simp only [hc, if_false]
      cases isValidCommand (cleanInputLine line) <;> simp
  exact ⟨fun st1 st2 line => (key st1 line).trans (key st2 line).symm, key⟩

/-! ## Claim C10: inventory non-negativity -/

def mapNonNeg (m : List (List Char × Int)) : Prop := ∀ p ∈ m, 0 ≤ p.2

/-- Every quantity stored in the three inventory maps is non-negative. -/
def stInvNonNeg (st : WTState) : Prop :=
  mapNonNeg st.invIngredients ∧ mapNonNeg st.invPotions ∧ mapNonNeg st.invTrophies

theorem mGet_nonneg (m : List (List Char × Int)) (k : List Char) (hm : mapNonNeg m) :
    0 ≤ mGet m k := by
  induction m with
  | nil => simp [mGet]
  | cons p rest ih =>
    obtain ⟨k2, v⟩ := p
    simp only [mGet]
    split
    · exact hm (k2, v) (by simp)
    · exact ih (fun q hq => hm q (by simp [hq]))

theorem mSet_nonneg (m : List (List Char × Int)) (k : List Char) (v : Int)
    (hm : mapNonNeg m) (hv : 0 ≤ v) : mapNonNeg (mSet m k v) := by
  induction m with
  | nil =>
    intro p hp
    simp only [mSet, List.mem_singleton] at hp
    simp [hp, hv]
  | cons q rest ih =>
    obtain ⟨k2, v2⟩ := q
    intro p hp
    simp only [mSet] at hp
    split at hp
    · rcases List.mem_cons.mp hp with h | h
      · simp [h, hv]
      · exact hm p (List.mem_cons_of_mem _ h)
    · rcases List.mem_cons.mp hp with h | h
      · exact h ▸ hm (k2, v2) (by simp)
      · exact ih (fun q hq => hm q (List.mem_cons_of_mem _ hq)) p h

theorem mAdd_nonneg (m : List (List Char × Int)) (k : List Char) (v : Int)
    (hm : mapNonNeg m) (hv : 0 ≤ v) : mapNonNeg (mAdd m k v) :=
  mSet_nonneg m k _ hm (add_nonneg (mGet_nonneg m k hm) hv)

theorem mRemove_nonneg (m : List (List Char × Int)) (k : List Char) (q : Int)
    (hm : mapNonNeg m) : mapNonNeg (mRemove m k q) := by
  unfold mRemove
  split
  · exact mSet_nonneg m k _ hm (by rename_i hq; omega)
  · exact mSet_nonneg m k _ hm (mGet_nonneg m k hm)

theorem foldl_mAdd_nonneg (ps : List (List Char × Int)) (m : List (List Char × Int))
    (hm : mapNonNeg m) (hp : ∀ p ∈ ps, 0 ≤ p.2) :
    mapNonNeg (ps.foldl (fun acc p => mAdd acc p.1 p.2) m) := by
  induction ps generalizing m with
  | nil => simpa using hm
  | cons p rest ih =>
    simp only [List.foldl_cons]
    exact ih _ (mAdd_nonneg _ _ _ hm (hp p (by simp))) (fun q hq => hp q (by simp [hq]))

theorem foldl_mRemove_nonneg (ps : List (List Char × Int)) (m : List (List Char × Int))
    (hm : mapNonNeg m) :
    mapNonNeg (ps.foldl (fun acc p => mRemove acc p.1 p.2) m) := by
  induction ps generalizing m with
  | nil => simpa using hm
  | cons p rest ih =>
    simp only [List.foldl_cons]
    exact ih _ (mRemove_nonneg _ _ _ hm)

theorem foldl_potRemove_nonneg (pts : List (List Char)) (m : List (List Char × Int))
    (hm : mapNonNeg m) :
    mapNonNeg (pts.foldl (fun acc p => if 0 < mGet acc p then mRemove acc p 1 else acc) m) := by
  induction pts generalizing m with
  | nil => simpa using hm
  | cons p rest ih =>
    simp only [List.foldl_cons]
    split
    · exact ih _ (mRemove_nonneg _ _ _ hm)
    · exact ih _ hm

theorem lootPairsOf_nonneg (l : List (List Char)) : ∀ p ∈ lootPairsOf l, 0 ≤ p.2 := by
  induction l using lootPairsOf.induct with
  | case1 q nm rest ih =>
    intro p hp
    rw [lootPairsOf] at hp
    rcases List.mem_cons.mp hp with h | h
    · simp [h]
    · exact ih p h
  | case2 l h1 =>
    intro p hp
    rw [lootPairsOf] at hp
    · simp at hp
    · exact h1

theorem tradePairsOf_nonneg (l : List (List Char)) : ∀ p ∈ tradePairsOf l, 0 ≤ p.2 := by
  induction l using tradePairsOf.induct with
  | case1 q nm rest ih =>
    intro p hp
    rw [tradePairsOf] at hp
    rcases List.mem_cons.mp hp with h | h
    · simp [h]
    · exact ih p h
  | case2 l h1 =>
    intro p hp
    rw [tradePairsOf] at hp
    · simp at hp
    · exact h1

theorem execLoot_nonneg (st : WTState) (t : List (List Char)) (h : stInvNonNeg st) :
    stInvNonNeg (executeLootAction st t).1 := by
  obtain ⟨h1, h2, h3⟩ := h
  exact ⟨foldl_mAdd_nonneg _ _ h1 (lootPairsOf_nonneg _), h2, h3⟩

theorem execTrade_nonneg (st : WTState) (t : List (List Char)) (h : stInvNonNeg st) :
    stInvNonNeg (executeTradeAction st t).1 := by
  obtain ⟨h1, h2, h3⟩ := h
  unfold executeTradeAction
  dsimp only
  split
  · exact ⟨foldl_mAdd_nonneg _ _ h1 (lootPairsOf_nonneg _), h2,
      foldl_mRemove_nonneg _ _ h3⟩
  · exact ⟨h1, h2, h3⟩

theorem execBrew_nonneg (st : WTState) (t : List (List Char)) (h : stInvNonNeg st) :
    stInvNonNeg (executeBrewAction st t).1 := by
  obtain ⟨h1, h2, h3⟩ := h
  unfold executeBrewAction
  dsimp only
  split
  · exact ⟨h1, h2, h3⟩
  · split
    · exact ⟨h1, h2, h3⟩
    · split
      · exact ⟨foldl_mRemove_nonneg _ _ h1, mAdd_nonneg _ _ _ h2 (by omega), h3⟩
      · exact ⟨h1, h2, h3⟩

theorem execEff_nonneg (st : WTState) (t : List (List Char)) (h : stInvNonNeg st) :
    stInvNonNeg (executeEffectivenessKnowledge st t).1 := by
  obtain ⟨h1, h2, h3⟩ := h
  unfold executeEffectivenessKnowledge
  dsimp only
  repeat' split
  all_goals exact ⟨h1, h2, h3⟩

theorem execFormula_nonneg (st : WTState) (t : List (List Char)) (h : stInvNonNeg st) :
    stInvNonNeg (executeFormulaKnowledge st t).1 := by
  obtain ⟨h1, h2, h3⟩ := h
  unfold executeFormulaKnowledge
  dsimp only
  split
  · exact ⟨h1, h2, h3⟩
  · exact ⟨h1, h2, h3⟩

theorem execEncounter_nonneg (st : WTState) (t : List (List Char)) (h : stInvNonNeg st) :
    stInvNonNeg (executeEncounter st t).1 := by
  obtain ⟨h1, h2, h3⟩ := h
  unfold executeEncounter
  dsimp only
  split
  · exact ⟨h1, h2, h3⟩
  · split
    · exact ⟨h1, foldl_potRemove_nonneg _ _ h2, mAdd_nonneg _ _ _ h3 (by omega)⟩
    · exact ⟨h1, h2, h3⟩

theorem executeCommand_nonneg (st : WTState) (input : List Char) (ct : CommandType)
    (h : stInvNonNeg st) : stInvNonNeg (executeCommand st input ct).1 := by
  cases ct with
  | actionLoot => exact execLoot_nonneg _ _ h
  | actionTrade => exact execTrade_nonneg _ _ h
  | actionBrew => exact execBrew_nonneg _ _ h
  | knowledgeEffectiveness => exact execEff_nonneg _ _ h
  | knowledgePotionFormula => exact execFormula_nonneg _ _ h
  | encounter => exact execEncounter_nonneg _ _ h
  | querySpecificInventory => exact h
  | queryAllInventory => exact h
  | queryBestiary => exact h
  | queryAlchemy => exact h
  | exitCommand => exact h

theorem processLine_nonneg (st : WTState) (line : List Char) (h : stInvNonNeg st) :
    stInvNonNeg (processLine st line).1 := by
  unfold processLine
  by_cases hc : cleanInputLine line = []
  · simpa [hc] using h
  · simp only [hc, if_false]
    cases hv : isValidCommand (cleanInputLine line) with
    | none => simpa using h
    | some ct => simpa using executeCommand_nonneg st _ ct h

theorem runLines_nonneg (lines : List (List Char)) (st : WTState) (h : stInvNonNeg st) :
    stInvNonNeg (runLines st lines) := by
  induction lines generalizing st with
  | nil => simpa [runLines] using h
  | cons l rest ih =>
    simp only [runLines, List.foldl_cons]
    exact ih _ (processLine_nonneg st l h)

/-- Claim C10: after executing any finite sequence of input lines from the
empty state, every quantity stored in the three inventory maps
(ingredients, potions, trophies) is non-negative: each remove operation
checks sufficiency before subtracting, trades verify all trophy
quantities before removing any, brews verify all ingredient quantities
before consuming, and encounters remove only potions with a positive
current count. -/
theorem c10_inventory_nonneg (lines : List (List Char)) :
    stInvNonNeg (runLines initState lines) := by
  refine runLines_nonneg lines initState ?_
  refine ⟨?_, ?_, ?_⟩ <;> intro p hp <;> simp [initState] at hp

/-! ## Claim C5: structure forced by `isTradeAction` -/

theorem findTokIdxAux_spec (w : List Char) :
    ∀ (l : List (List Char)) (i j : Nat), findTokIdxAux w l i = some j →
      i ≤ j ∧ j - i < l.length ∧ l.getD (j - i) [] = w := by
  intro l
  induction l with
  | nil => intro i j h; simp [findTokIdxAux] at h
  | cons x rest ih =>
    intro i j h
    rw [findTokIdxAux] at h
    split at h
    · rename_i hx
      obtain rfl := Option.some.inj h
      refine ⟨le_refl _, by simp, ?_⟩
      simpa [Nat.sub_self] using hx
    · obtain ⟨h1, h2, h3⟩ := ih (i + 1) j h
      refine ⟨by omega, by simp only [List.length_cons]; omega, ?_⟩
      have he : j - i = (j - (i + 1)) + 1 := by omega
      rw [he]
      simpa using h3

theorem tkAt_drop (t : List (List Char)) (n m : Nat) : tkAt (t.drop n) m = tkAt t (n + m) := by
  unfold tkAt
  rw [List.getD_eq_getElem?_getD, List.getD_eq_getElem?_getD, List.getElem?_drop]

theorem tkAt_take_of_lt (t : List (List Char)) (n m : Nat) (h : m < n) :
    tkAt (t.take n) m = tkAt t m := by
  unfold tkAt
  rw [List.getD_eq_getElem?_getD, List.getD_eq_getElem?_getD, List.getElem?_take_of_lt h]

theorem findForIdx_spec (t : List (List Char)) (f : Nat) (h : findForIdx t = some f) :
    2 ≤ f ∧ f < t.length ∧ tkAt t f = kwFor := by
  obtain ⟨h1, h2, h3⟩ := findTokIdxAux_spec kwFor (t.drop 2) 2 f h
  rw [List.length_drop] at h2
  refine ⟨h1, by omega, ?_⟩
  have := tkAt_drop t 2 (f - 2)
  rw [show 2 + (f - 2) = f from by omega] at this
  rw [← this]
  exact h3

/-- Success of the trophy loop forces the region to end with the literal
"trophy" token. -/
theorem trophyLoop_last : ∀ (n : Nat) (R : List (List Char)), R.length ≤ n →
    ∀ exp, trophyLoop exp R = true → R.getLast? = some kwTrophy := by
  intro n
  induction n with
  | zero =>
    intro R hR exp h
    have : R = [] := List.length_eq_zero.mp (by omega)
    subst this
    simp [trophyLoop] at h
  | succ n ih =>
    intro R hR exp h
    match R, exp with
    | [], _ => simp [trophyLoop] at h
    | q :: rest, true =>
      rw [trophyLoop, Bool.and_eq_true] at h
      have hne : rest ≠ [] := by
        intro he
        rw [he, trophyLoop] at h
        exact absurd h.2 (by simp)
      have hlast := ih rest (by simp only [List.length_cons] at hR; omega) false h.2
      obtain ⟨b, l2, rfl⟩ := List.exists_cons_of_ne_nil hne
      rwa [List.getLast?_cons_cons]
    | nm :: rest, false =>
      match rest with
      | [] => simp [trophyLoop] at h
      | [c] =>
        simp only [trophyLoop, Bool.and_eq_true, decide_eq_true_eq] at h
        simp [h.2]
      | c :: d :: rest3 =>
        simp only [trophyLoop, Bool.and_eq_true, decide_eq_true_eq] at h
        have h2 : trophyLoop true (d :: rest3) = true := by
          rw [trophyLoop, Bool.and_eq_true]
          exact h.2.2
        have hlast := ih (d :: rest3)
          (by simp only [List.length_cons] at hR ⊢; omega) true h2
        simpa [List.getLast?_cons_cons] using hlast

/-- Success of the trophy loop in the quantity state forces an initial
quantity/name pair. -/
theorem trophyLoop_head (R : List (List Char)) (h : trophyLoop true R = true) :
    ∃ q nm rest, R = q :: nm :: rest ∧
      isPositiveInteger q = true ∧ isAlphabeticOnly nm = true := by
  match R with
  | [] => simp [trophyLoop] at h
  | q :: rest =>
    rw [trophyLoop, Bool.and_eq_true] at h
    match rest with
    | [] => rw [trophyLoop] at h; exact absurd h.2 (by simp)
    | nm :: rest2 =>
      refine ⟨q, nm, rest2, rfl, h.1, ?_⟩
      have h2 := h.2
      match rest2 with
      | [] => simp [trophyLoop] at h2
      | [c] =>
        simp only [trophyLoop, Bool.and_eq_true] at h2
        exact h2.1
      | c :: d :: r =>
        simp only [trophyLoop, Bool.and_eq_true] at h2
        exact h2.1

/-- Success of the ingredient loop in the quantity state forces an initial
quantity/name pair. -/
theorem ingLoop_head (D : List (List Char)) (h : ingLoop true D = true) :
    ∃ q nm rest, D = q :: nm :: rest ∧
      isPositiveInteger q = true ∧ isAlphabeticOnly nm = true := by
  match D with
  | [] => simp [ingLoop] at h
  | [q] =>
    simp only [ingLoop, Bool.and_eq_true] at h
    exact absurd h.2 (by simp)
  | q :: nm :: rest2 =>
    simp only [ingLoop, Bool.and_eq_true] at h
    refine ⟨q, nm, rest2, rfl, h.1, ?_⟩
    have h2 := h.2
    match rest2 with
    | [] =>
      simp only [ingLoop, Bool.and_eq_true] at h2
      exact h2.1
    | [c] =>
      simp only [ingLoop, Bool.and_eq_true] at h2
      exact h2.1
    | c :: d :: r =>
      simp only [ingLoop, Bool.and_eq_true] at h2
      exact h2.1

/-- Claim C5: whenever `isTradeAction` accepts, the token sequence contains
a first "for" token at an index `f` with `4 < f` and `f + 2 <` the token
count, the token at `f - 1` is the literal "trophy", the regions strictly
between "trades" and "for" and after "for" satisfy the trophy-list and
ingredient-list loops, and in particular a quantity/name trophy pair opens
the trophy list (tokens 2 and 3) and a quantity/name ingredient pair
follows "for" (tokens f+1 and f+2). -/
theorem c5_trade_shape (input : List Char) (h : isTradeAction input = true) :
    ∃ f, findForIdx (tokenizeInput input) = some f ∧
      4 < f ∧ f + 2 < (tokenizeInput input).length ∧
      tkAt (tokenizeInput input) f = kwFor ∧
      tkAt (tokenizeInput input) (f - 1) = kwTrophy ∧
      trophyLoop true (((tokenizeInput input).drop 2).take (f - 2)) = true ∧
      ingLoop true ((tokenizeInput input).drop (f + 1)) = true ∧
      isPositiveInteger (tkAt (tokenizeInput input) 2) = true ∧
      isAlphabeticOnly (tkAt (tokenizeInput input) 3) = true ∧
      isPositiveInteger (tkAt (tokenizeInput input) (f + 1)) = true ∧
      isAlphabeticOnly (tkAt (tokenizeInput input) (f + 2)) = true := by
  unfold isTradeAction at h
  rw [Bool.and_eq_true, Bool.and_eq_true, Bool.and_eq_true, Bool.and_eq_true] at h
  obtain ⟨⟨⟨⟨hcomma, hlen⟩, h0⟩, h1⟩, hmatch⟩ := h
  set t := tokenizeInput input with ht
  cases hf : findForIdx t with
  | none => rw [hf] at hmatch; exact absurd hmatch (by simp)
  | some f =>
    rw [hf] at hmatch
    rw [Bool.and_eq_true, Bool.and_eq_true, Bool.and_eq_true] at hmatch
    obtain ⟨⟨⟨hf4, hflen⟩, htrophy⟩, hing⟩ := hmatch
    rw [decide_eq_true_eq] at hf4 hflen
    obtain ⟨hge2, hflt, hfor⟩ := findForIdx_spec t f hf
    have hreglen : (((t.drop 2).take (f - 2)).length) = f - 2 := by
      rw [List.length_take, List.length_drop]
      omega
    -- token at f - 1 is "trophy"
    have hlast := trophyLoop_last ((t.drop 2).take (f - 2)).length _ (le_refl _) true htrophy
    have hlastAt : tkAt ((t.drop 2).take (f - 2)) (f - 2 - 1) = kwTrophy := by
      rw [List.getLast?_eq_getElem?, hreglen] at hlast
      unfold tkAt
      rw [List.getD_eq_getElem?_getD, hlast]
      rfl
    have hfm1 : tkAt t (f - 1) = kwTrophy := by
      rw [tkAt_take_of_lt _ _ _ (by omega), tkAt_drop,
        show 2 + (f - 2 - 1) = f - 1 from by omega] at hlastAt
      exact hlastAt
    -- initial trophy pair
    obtain ⟨q, nm, rest, hreg, hq, hnm⟩ := trophyLoop_head _ htrophy
    have ht2 : tkAt t 2 = q := by
      have : tkAt ((t.drop 2).take (f - 2)) 0 = q := by rw [hreg]; rfl
      rwa [tkAt_take_of_lt _ _ _ (by omega), tkAt_drop, Nat.add_zero] at this
    have ht3 : tkAt t 3 = nm := by
      have : tkAt ((t.drop 2).take (f - 2)) 1 = nm := by rw [hreg]; rfl
      rwa [tkAt_take_of_lt _ _ _ (by omega), tkAt_drop] at this
    -- initial ingredient pair
    obtain ⟨q2, nm2, rest2, hregI, hq2, hnm2⟩ := ingLoop_head _ hing
    have htf1 : tkAt t (f + 1) = q2 := by
      have : tkAt (t.drop (f + 1)) 0 = q2 := by rw [hregI]; rfl
      rwa [tkAt_drop, Nat.add_zero] at this
    have htf2 : tkAt t (f + 2) = nm2 := by
      have : tkAt (t.drop (f + 1)) 1 = nm2 := by rw [hregI]; rfl
      rwa [tkAt_drop, show f + 1 + 1 = f + 2 from by omega] at this
    exact ⟨f, rfl, hf4, hflen, hfor, hfm1, htrophy, hing,
      ht2 ▸ hq, ht3 ▸ hnm, htf1 ▸ hq2, htf2 ▸ hnm2⟩

theorem c5_trade_shape_witness :
    isTradeAction (str "Geralt trades 2 Drowner trophy for 5 Rebis") = true ∧
    (∃ f, findForIdx (tokenizeInput (str "Geralt trades 2 Drowner trophy for 5 Rebis")) = some f ∧
      4 < f ∧
      f + 2 < (tokenizeInput (str "Geralt trades 2 Drowner trophy for 5 Rebis")).length ∧
      tkAt (tokenizeInput (str "Geralt trades 2 Drowner trophy for 5 Rebis")) f = kwFor ∧
      tkAt (tokenizeInput (str "Geralt trades 2 Drowner trophy for 5 Rebis")) (f - 1) = kwTrophy ∧
      trophyLoop true (((tokenizeInput (str "Geralt trades 2 Drowner trophy for 5 Rebis")).drop 2).take (f - 2)) = true ∧
      ingLoop true ((tokenizeInput (str "Geralt trades 2 Drowner trophy for 5 Rebis")).drop (f + 1)) = true ∧
      isPositiveInteger (tkAt (tokenizeInput (str "Geralt trades 2 Drowner trophy for 5 Rebis")) 2) = true ∧
      isAlphabeticOnly (tkAt (tokenizeInput (str "Geralt trades 2 Drowner trophy for 5 Rebis")) 3) = true ∧
      isPositiveInteger (tkAt (tokenizeInput (str "Geralt trades 2 Drowner trophy for 5 Rebis")) (f + 1)) = true ∧
      isAlphabeticOnly (tkAt (tokenizeInput (str "Geralt trades 2 Drowner trophy for 5 Rebis")) (f + 2)) = true) :=
  ⟨by decide, c5_trade_shape (str "Geralt trades 2 Drowner trophy for 5 Rebis") (by decide)⟩

/-! ## Claim C8: strict keyword extensions fall through to the generic
tokenizer -/

theorem stripKeyword_self (kw tail : List Char) (h : cIsSpace (tail.headD ' ') = true) :
    stripKeyword kw (kw ++ tail) = some tail := by
  induction kw with
  | nil =>
    rw [List.nil_append, stripKeyword, h]
    rfl
  | cons k ks ih => simp [stripKeyword, ih]

theorem stripKeyword_ext (kw : List Char) (c : Char) (rest : List Char)
    (h : cIsSpace c = false) : stripKeyword kw (kw ++ c :: rest) = none := by
  induction kw with
  | nil => simp [stripKeyword, h]
  | cons k ks ih => simp [stripKeyword, ih]

theorem stripKeyword_head_ne (k : Char) (ks : List Char) (c : Char) (s : List Char)
    (h : ¬ c = k) : stripKeyword (k :: ks) (c :: s) = none := by
  simp [stripKeyword, h]

theorem dropWhile_space_cons (c : Char) (l : List Char) (h : cIsSpace c = false) :
    (c :: l).dropWhile cIsSpace = c :: l := by
  simp [List.dropWhile_cons, h]

theorem dropWhile_space_all_append (ws l : List Char) (hw : ∀ x ∈ ws, cIsSpace x = true) :
    (ws ++ l).dropWhile cIsSpace = l.dropWhile cIsSpace := by
  induction ws with
  | nil => simp
  | cons w ws2 ih =>
    simp only [List.cons_append, List.dropWhile_cons]
    rw [hw w (by simp)]
    simp only [if_true]
    exact ih (fun x hx => hw x (by simp [hx]))

/-- When none of the leading-keyword dispatches fires, `tokenizeInput` is
the generic fallback on the whole line. -/
theorem tokenizeInput_no_dispatch (input : List Char)
    (hW : stripKeyword kwWhat (input.dropWhile cIsSpace) = none)
    (hT : stripKeyword kwTotal (input.dropWhile cIsSpace) = none)
    (hG : stripKeyword kwGeralt (input.dropWhile cIsSpace) = none) :
    tokenizeInput input = genTok input := by
  unfold tokenizeInput totalOrGeralt
  dsimp only
  rw [hW, hT, hG]

/-- When "Geralt" matches but none of the verb dispatches fires,
`tokenizeInput` re-tokenizes the whole line generically. -/
theorem tokenizeInput_geralt_fallthrough (input r : List Char)
    (hW : stripKeyword kwWhat (input.dropWhile cIsSpace) = none)
    (hT : stripKeyword kwTotal (input.dropWhile cIsSpace) = none)
    (hG : stripKeyword kwGeralt (input.dropWhile cIsSpace) = some r)
    (hB : stripKeyword kwBrews (r.dropWhile cIsSpace) = none)
    (hL : stripKeyword kwLearns (r.dropWhile cIsSpace) = none)
    (hR : stripKeyword kwTrades (r.dropWhile cIsSpace) = none) :
    tokenizeInput input = genTok input := by
  unfold tokenizeInput totalOrGeralt
  dsimp only
  rw [hW, hT, hG]
  dsimp only
  rw [hB, hL, hR]

/-- Claim C8: a line whose leading word strictly extends a dispatch keyword
(the keyword characters followed immediately by a non-whitespace
character) — "What", "Total" or "Geralt" at the start of the line, or
"brews"/"learns"/"trades" after "Geralt" and whitespace — does not commit
to that keyword's branch: the result is the generic fallback tokenization
of the entire original line (whitespace-split, each comma its own token). -/
theorem c8_keyword_extension :
    (∀ (c : Char) (rest : List Char), cIsSpace c = false →
      tokenizeInput (kwWhat ++ c :: rest) = genTok (kwWhat ++ c :: rest) ∧
      tokenizeInput (kwTotal ++ c :: rest) = genTok (kwTotal ++ c :: rest) ∧
      tokenizeInput (kwGeralt ++ c :: rest) = genTok (kwGeralt ++ c :: rest)) ∧
    (∀ (ws : List Char) (c : Char) (rest : List Char), ws ≠ [] →
      (∀ x ∈ ws, cIsSpace x = true) → cIsSpace c = false →
      tokenizeInput (kwGeralt ++ ws ++ (kwBrews ++ c :: rest)) =
        genTok (kwGeralt ++ ws ++ (kwBrews ++ c :: rest)) ∧
      tokenizeInput (kwGeralt ++ ws ++ (kwLearns ++ c :: rest)) =
        genTok (kwGeralt ++ ws ++ (kwLearns ++ c :: rest)) ∧
      tokenizeInput (kwGeralt ++ ws ++ (kwTrades ++ c :: rest)) =
        genTok (kwGeralt ++ ws ++ (kwTrades ++ c :: rest))) := by
  constructor
  · intro c rest h
    refine ⟨?_, ?_, ?_⟩
    · have hs0 : (kwWhat ++ c :: rest).dropWhile cIsSpace = kwWhat ++ c :: rest := by
        show ('W' :: (['h', 'a', 't'] ++ c :: rest)).dropWhile cIsSpace = _
        exact dropWhile_space_cons _ _ (by decide)
      refine tokenizeInput_no_dispatch _ ?_ ?_ ?_ <;> rw [hs0]
      · exact stripKeyword_ext _ _ _ h
      · exact stripKeyword_head_ne _ _ _ _ (by decide)
      · exact stripKeyword_head_ne _ _ _ _ (by decide)
    · have hs0 : (kwTotal ++ c :: rest).dropWhile cIsSpace = kwTotal ++ c :: rest := by
        show ('T' :: (['o', 't', 'a', 'l'] ++ c :: rest)).dropWhile cIsSpace = _
        exact dropWhile_space_cons _ _ (by decide)
      refine tokenizeInput_no_dispatch _ ?_ ?_ ?_ <;> rw [hs0]
      · exact stripKeyword_head_ne _ _ _ _ (by decide)
      · exact stripKeyword_ext _ _ _ h
      · exact stripKeyword_head_ne _ _ _ _ (by decide)
    · have hs0 : (kwGeralt ++ c :: rest).dropWhile cIsSpace = kwGeralt ++ c :: rest := by
        show ('G' :: (['e', 'r', 'a', 'l', 't'] ++ c :: rest)).dropWhile cIsSpace = _
        exact dropWhile_space_cons _ _ (by decide)
      refine tokenizeInput_no_dispatch _ ?_ ?_ ?_ <;> rw [hs0]
      · exact stripKeyword_head_ne _ _ _ _ (by decide)
      · exact stripKeyword_head_ne _ _ _ _ (by decide)
      · exact stripKeyword_ext _ _ _ h
  · intro ws c rest hne hw h
    obtain ⟨w0, ws2, rfl⟩ := List.exists_cons_of_ne_nil hne
    have hroot : ∀ (v : List Char),
        (v ++ c :: rest).dropWhile cIsSpace = v ++ c :: rest →
        stripKeyword kwBrews ((v ++ c :: rest).dropWhile cIsSpace) = none →
        stripKeyword kwLearns ((v ++ c :: rest).dropWhile cIsSpace) = none →
        stripKeyword kwTrades ((v ++ c :: rest).dropWhile cIsSpace) = none →
        tokenizeInput (kwGeralt ++ (w0 :: ws2) ++ (v ++ c :: rest)) =
          genTok (kwGeralt ++ (w0 :: ws2) ++ (v ++ c :: rest)) := by
      intro v hv hB hL hR
      have hs0 : (kwGeralt ++ (w0 :: ws2) ++ (v ++ c :: rest)).dropWhile cIsSpace =
          kwGeralt ++ (w0 :: ws2) ++ (v ++ c :: rest) := by
        show ('G' :: (['e', 'r', 'a', 'l', 't'] ++ _)).dropWhile cIsSpace = _
        exact dropWhile_space_cons _ _ (by decide)
      have hr : ((w0 :: ws2) ++ (v ++ c :: rest)).dropWhile cIsSpace = v ++ c :: rest := by
        rw [dropWhile_space_all_append _ _ hw]
        exact hv
      refine tokenizeInput_geralt_fallthrough _ ((w0 :: ws2) ++ (v ++ c :: rest))
        ?_ ?_ ?_ ?_ ?_ ?_
      · rw [hs0]
        exact stripKeyword_head_ne _ _ _ _ (by decide)
      · rw [hs0]
        exact stripKeyword_head_ne _ _ _ _ (by decide)
      · rw [hs0]
        exact stripKeyword_self _ _ (by simp [hw w0 (by simp)])
      · rw [hr, ← hv]
        exact hB
      · rw [hr, ← hv]
        exact hL
      · rw [hr, ← hv]
        exact hR
    refine ⟨?_, ?_, ?_⟩
    · refine hroot kwBrews ?_ ?_ ?_ ?_
      · show ('b' :: (['r', 'e', 'w', 's'] ++ c :: rest)).dropWhile cIsSpace = _
        exact dropWhile_space_cons _ _ (by decide)
      all_goals rw [show (kwBrews ++ c :: rest).dropWhile cIsSpace = kwBrews ++ c :: rest from by
        show ('b' :: (['r', 'e', 'w', 's'] ++ c :: rest)).dropWhile cIsSpace = _
        exact dropWhile_space_cons _ _ (by decide)]
      · exact stripKeyword_ext _ _ _ h
      · exact stripKeyword_head_ne _ _ _ _ (by decide)
      · exact stripKeyword_head_ne _ _ _ _ (by decide)
    · refine hroot kwLearns ?_ ?_ ?_ ?_
      · show ('l' :: (['e', 'a', 'r', 'n', 's'] ++ c :: rest)).dropWhile cIsSpace = _
        exact dropWhile_space_cons _ _ (by decide)
      all_goals rw [show (kwLearns ++ c :: rest).dropWhile cIsSpace = kwLearns ++ c :: rest from by
        show ('l' :: (['e', 'a', 'r', 'n', 's'] ++ c :: rest)).dropWhile cIsSpace = _
        exact dropWhile_space_cons _ _ (by decide)]
      · exact stripKeyword_head_ne _ _ _ _ (by decide)
      · exact stripKeyword_ext _ _ _ h
      · exact stripKeyword_head_ne _ _ _ _ (by decide)
    · refine hroot kwTrades ?_ ?_ ?_ ?_
      · show ('t' :: (['r', 'a', 'd', 'e', 's'] ++ c :: rest)).dropWhile cIsSpace = _
        exact dropWhile_space_cons _ _ (by decide)
      all_goals rw [show (kwTrades ++ c :: rest).dropWhile cIsSpace = kwTrades ++ c :: rest from by
        show ('t' :: (['r', 'a', 'd', 'e', 's'] ++ c :: rest)).dropWhile cIsSpace = _
        exact dropWhile_space_cons _ _ (by decide)]
      · exact stripKeyword_head_ne _ _ _ _ (by decide)
      · exact stripKeyword_head_ne _ _ _ _ (by decide)
      · exact stripKeyword_ext _ _ _ h

theorem c8_keyword_extension_witness :
    cIsSpace 'l' = false ∧
    tokenizeInput (kwTotal ++ 'l' :: str "y x") = genTok (kwTotal ++ 'l' :: str "y x") ∧
    (([' '] : List Char) ≠ [] ∧ (∀ x ∈ ([' '] : List Char), cIsSpace x = true) ∧
      cIsSpace 'X' = false ∧
      tokenizeInput (kwGeralt ++ [' '] ++ (kwBrews ++ 'X' :: str " y")) =
        genTok (kwGeralt ++ [' '] ++ (kwBrews ++ 'X' :: str " y"))) :=
  ⟨by decide,
   ((c8_keyword_extension.1 'l' (str "y x") (by decide)).2).1,
   by decide, by decide, by decide,
   ((c8_keyword_extension.2 [' '] 'X' (str " y") (by decide) (by decide) (by decide)).1)⟩

/-! ## Claim C2: mutual exclusivity of the ten shape-checkers -/

def b2n (b : Bool) : Nat := if b then 1 else 0

/-- Number of shape-checkers accepting the input. -/
def acceptCount (input : List Char) : Nat :=
  b2n (isLootAction input) + b2n (isTradeAction input) + b2n (isBrewAction input) +
  b2n (isEffectivenessKnowledge input) + b2n (isPotionFormulaKnowledge input) +
  b2n (isEncounterSentence input) + b2n (isInventoryQuery input).1 +
  b2n (isBestiaryQuery input) + b2n (isAlchemyQuery input) + b2n (isExitCommand input)

theorem lootProfile (i : List Char) (h : isLootAction i = true) :
    tkAt (tokenizeInput i) 0 = kwGeralt ∧ tkAt (tokenizeInput i) 1 = kwLoots := by
  unfold isLootAction at h
  simp only [Bool.and_eq_true, decide_eq_true_eq] at h
  exact ⟨h.1.1.2, h.1.2⟩

theorem tradeProfile (i : List Char) (h : isTradeAction i = true) :
    tkAt (tokenizeInput i) 0 = kwGeralt ∧ tkAt (tokenizeInput i) 1 = kwTrades := by
  unfold isTradeAction at h
  simp only [Bool.and_eq_true, decide_eq_true_eq] at h
  exact ⟨h.1.1.2, h.1.2⟩

theorem brewProfile (i : List Char) (h : isBrewAction i = true) :
    tkAt (tokenizeInput i) 0 = kwGeralt ∧ tkAt (tokenizeInput i) 1 = kwBrews := by
  unfold isBrewAction at h
  simp only [Bool.and_eq_true, decide_eq_true_eq] at h
  exact ⟨h.1.1.2, h.1.2⟩

theorem effProfile (i : List Char) (h : isEffectivenessKnowledge i = true) :
    tkAt (tokenizeInput i) 0 = kwGeralt ∧ tkAt (tokenizeInput i) 1 = kwLearns ∧
    (tkAt (tokenizeInput i) 3 = kwPotion ∨ tkAt (tokenizeInput i) 3 = kwSign) ∧
    tkAt (tokenizeInput i) 4 = kwIs ∧ tkAt (tokenizeInput i) 5 = kwEffective ∧
    tkAt (tokenizeInput i) 6 = kwAgainst ∧ (tokenizeInput i).length = 8 := by
  unfold isEffectivenessKnowledge at h
  simp only [Bool.and_eq_true, Bool.or_eq_true, decide_eq_true_eq] at h
  obtain ⟨⟨⟨⟨⟨⟨⟨⟨⟨hl, h0⟩, h1⟩, h34⟩, h4⟩, h5⟩, h6⟩, h8⟩, h7⟩, hif⟩ := h
  exact ⟨h0, h1, h34, h4, h5, h6, h8⟩

theorem formulaProfile (i : List Char) (h : isPotionFormulaKnowledge i = true) :
    tkAt (tokenizeInput i) 0 = kwGeralt ∧ tkAt (tokenizeInput i) 1 = kwLearns ∧
    ∃ pIdx cIdx, findTokIdxAux kwPotion ((tokenizeInput i).drop 2) 2 = some pIdx ∧
      findTokIdxAux kwConsists ((tokenizeInput i).drop 2) 2 = some cIdx ∧
      1 < pIdx ∧ pIdx + 1 = cIdx := by
  unfold isPotionFormulaKnowledge at h
  simp only [Bool.and_eq_true, decide_eq_true_eq] at h
  obtain ⟨⟨⟨⟨⟨hlen, hcomma⟩, hlast⟩, h0⟩, h1⟩, hm⟩ := h
  refine ⟨h0, h1, ?_⟩
  cases hp : findTokIdxAux kwPotion ((tokenizeInput i).drop 2) 2 with
  | none => rw [hp] at hm; simp at hm
  | some pIdx =>
    cases hc : findTokIdxAux kwConsists ((tokenizeInput i).drop 2) 2 with
    | none => rw [hp, hc] at hm; simp at hm
    | some cIdx =>
      cases ho : findTokIdxAux kwOf ((tokenizeInput i).drop 2) 2 with
      | none => rw [hp, hc, ho] at hm; simp at hm
      | some oIdx =>
        rw [hp, hc, ho] at hm
        simp only [Bool.and_eq_true, decide_eq_true_eq] at hm
        exact ⟨pIdx, cIdx, rfl, rfl, hm.1.1.1.1, hm.1.2.1⟩

theorem encProfile (i : List Char) (h : isEncounterSentence i = true) :
    tkAt (tokenizeInput i) 0 = kwGeralt ∧ tkAt (tokenizeInput i) 1 = kwEncounters := by
  unfold isEncounterSentence at h
  simp only [Bool.and_eq_true, decide_eq_true_eq] at h
  exact ⟨h.1.1.1.2, h.1.1.2⟩

theorem invProfile (i : List Char) (h : (isInventoryQuery i).1 = true) :
    tkAt (tokenizeInput i) 0 = kwTotal := by
  unfold isInventoryQuery at h
  simp only [Bool.and_eq_true, decide_eq_true_eq] at h
  exact h.1.1.2

theorem bestProfile (i : List Char) (h : isBestiaryQuery i = true) :
    tkAt (tokenizeInput i) 0 = kwWhat ∧ tkAt (tokenizeInput i) 2 = kwEffective := by
  unfold isBestiaryQuery at h
  simp only [Bool.and_eq_true, decide_eq_true_eq] at h
  exact ⟨h.1.1.1.1.1.2, h.1.1.1.2⟩

theorem alchProfile (i : List Char) (h : isAlchemyQuery i = true) :
    tkAt (tokenizeInput i) 0 = kwWhat ∧ tkAt (tokenizeInput i) 2 = kwIn := by
  unfold isAlchemyQuery at h
  simp only [Bool.and_eq_true, decide_eq_true_eq] at h
  exact ⟨h.1.1.1.1.2, h.1.1.2⟩

theorem exitProfile (i : List Char) (h : isExitCommand i = true) : i = strExit := by
  simpa [isExitCommand] using h

/-- The two "Geralt learns" checkers can never both accept: under the
effectiveness shape, the first "potion" token (if any) is never
immediately followed by "consists". -/
theorem eff_formula_clash (i : List Char) (he : isEffectivenessKnowledge i = true)
    (hf : isPotionFormulaKnowledge i = true) : False := by
  obtain ⟨h0, h1, h34, h4, h5, h6, hlen⟩ := effProfile i he
  obtain ⟨_, _, pIdx, cIdx, hp, hc, hgt, hsucc⟩ := formulaProfile i hf
  obtain ⟨hp1, hp2, hp3⟩ := findTokIdxAux_spec kwPotion _ 2 pIdx hp
  obtain ⟨hc1, hc2, hc3⟩ := findTokIdxAux_spec kwConsists _ 2 cIdx hc
  rw [List.length_drop, hlen] at hp2 hc2
  have hpAt : tkAt (tokenizeInput i) pIdx = kwPotion := by
    have ht := tkAt_drop (tokenizeInput i) 2 (pIdx - 2)
    rw [show 2 + (pIdx - 2) = pIdx from by omega] at ht
    rw [← ht]
    exact hp3
  have hcAt : tkAt (tokenizeInput i) cIdx = kwConsists := by
    have ht := tkAt_drop (tokenizeInput i) 2 (cIdx - 2)
    rw [show 2 + (cIdx - 2) = cIdx from by omega] at ht
    rw [← ht]
    exact hc3
  have hcases : pIdx = 2 ∨ pIdx = 3 ∨ pIdx = 4 ∨ pIdx = 5 ∨ pIdx = 6 := by omega
  rcases hcases with rfl | rfl | rfl | rfl | rfl
  · have h3 : cIdx = 3 := by omega
    subst h3
    rcases h34 with h34 | h34
    · exact absurd (hcAt.symm.trans h34) (by decide)
    · exact absurd (hcAt.symm.trans h34) (by decide)
  · have h3 : cIdx = 4 := by omega
    subst h3
    exact absurd (hcAt.symm.trans h4) (by decide)
  · exact absurd (hpAt.symm.trans h4) (by decide)
  · exact absurd (hpAt.symm.trans h5) (by decide)
  · exact absurd (hpAt.symm.trans h6) (by decide)

/-- Claim C2: for every input string at most one of the ten
shape-checkers accepts, so the shape committed by `isValidCommand` is
independent of the fixed precedence order and classification is a
single-valued mapping from line to shape. -/
theorem c2_at_most_one_checker (input : List Char) : acceptCount input ≤ 1 := by
  by_cases hL : isLootAction input = true
  · have fT : isTradeAction input = false := Bool.eq_false_iff.mpr (fun hx => absurd (((lootProfile input hL).2).symm.trans ((tradeProfile input hx).2)) (by decide))
    have fB : isBrewAction input = false := Bool.eq_false_iff.mpr (fun hx => absurd (((lootProfile input hL).2).symm.trans ((brewProfile input hx).2)) (by decide))
    have fE : isEffectivenessKnowledge input = false := Bool.eq_false_iff.mpr (fun hx => absurd (((lootProfile input hL).2).symm.trans ((effProfile input hx).2.1)) (by decide))
    have fF : isPotionFormulaKnowledge input = false := Bool.eq_false_iff.mpr (fun hx => absurd (((lootProfile input hL).2).symm.trans ((formulaProfile input hx).2.1)) (by decide))
    have fN : isEncounterSentence input = false := Bool.eq_false_iff.mpr (fun hx => absurd (((lootProfile input hL).2).symm.trans ((encProfile input hx).2)) (by decide))
    have fI : (isInventoryQuery input).1 = false := Bool.eq_false_iff.mpr (fun hx => absurd (((lootProfile input hL).1).symm.trans (invProfile input hx)) (by decide))
    have fQ : isBestiaryQuery input = false := Bool.eq_false_iff.mpr (fun hx => absurd (((lootProfile input hL).1).symm.trans ((bestProfile input hx).1)) (by decide))
    have fA : isAlchemyQuery input = false := Bool.eq_false_iff.mpr (fun hx => absurd (((lootProfile input hL).1).symm.trans ((alchProfile input hx).1)) (by decide))
    have fX : isExitCommand input = false := Bool.eq_false_iff.mpr
      (fun hx => by rw [exitProfile input hx] at hL; exact absurd hL (by decide))
    simp [acceptCount, b2n, hL, fT, fB, fE, fF, fN, fI, fQ, fA, fX]
  · have gL : isLootAction input = false := Bool.eq_false_iff.mpr hL
    by_cases hT : isTradeAction input = true
    · have fL : isLootAction input = false := Bool.eq_false_iff.mpr (fun hx => absurd (((tradeProfile input hT).2).symm.trans ((lootProfile input hx).2)) (by decide))
      have fB : isBrewAction input = false := Bool.eq_false_iff.mpr (fun hx => absurd (((tradeProfile input hT).2).symm.trans ((brewProfile input hx).2)) (by decide))
      have fE : isEffectivenessKnowledge input = false := Bool.eq_false_iff.mpr (fun hx => absurd (((tradeProfile input hT).2).symm.trans ((effProfile input hx).2.1)) (by decide))
      have fF : isPotionFormulaKnowledge input = false := Bool.eq_false_iff.mpr (fun hx => absurd (((tradeProfile input hT).2).symm.trans ((formulaProfile input hx).2.1)) (by decide))
      have fN : isEncounterSentence input = false := Bool.eq_false_iff.mpr (fun hx => absurd (((tradeProfile input hT).2).symm.trans ((encProfile input hx).2)) (by decide))
      have fI : (isInventoryQuery input).1 = false := Bool.eq_false_iff.mpr (fun hx => absurd (((tradeProfile input hT).1).symm.trans (invProfile input hx)) (by decide))
      have fQ : isBestiaryQuery input = false := Bool.eq_false_iff.mpr (fun hx => absurd (((tradeProfile input hT).1).symm.trans ((bestProfile input hx).1)) (by decide))
      have fA : isAlchemyQuery input = false := Bool.eq_false_iff.mpr (fun hx => absurd (((tradeProfile input hT).1).symm.trans ((alchProfile input hx).1)) (by decide))
      have fX : isExitCommand input = false := Bool.eq_false_iff.mpr
        (fun hx => by rw [exitProfile input hx] at hT; exact absurd hT (by decide))
      simp [acceptCount, b2n, hT, fL, fB, fE, fF, fN, fI, fQ, fA, fX]
    · have gT : isTradeAction input = false := Bool.eq_false_iff.mpr hT
      by_cases hB : isBrewAction input = true
      · have fL : isLootAction input = false := Bool.eq_false_iff.mpr (fun hx => absurd (((brewProfile input hB).2).symm.trans ((lootProfile input hx).2)) (by decide))
        have fT : isTradeAction input = false := Bool.eq_false_iff.mpr (fun hx => absurd (((brewProfile input hB).2).symm.trans ((tradeProfile input hx).2)) (by decide))
        have fE : isEffectivenessKnowledge input = false := Bool.eq_false_iff.mpr (fun hx => absurd (((brewProfile input hB).2).symm.trans ((effProfile input hx).2.1)) (by decide))
        have fF : isPotionFormulaKnowledge input = false := Bool.eq_false_iff.mpr (fun hx => absurd (((brewProfile input hB).2).symm.trans ((formulaProfile input hx).2.1)) (by decide))
        have fN : isEncounterSentence input = false := Bool.eq_false_iff.mpr (fun hx => absurd (((brewProfile input hB).2).symm.trans ((encProfile input hx).2)) (by decide))
        have fI : (isInventoryQuery input).1 = false := Bool.eq_false_iff.mpr (fun hx => absurd (((brewProfile input hB).1).symm.trans (invProfile input hx)) (by decide))
        have fQ : isBestiaryQuery input = false := Bool.eq_false_iff.mpr (fun hx => absurd (((brewProfile input hB).1).symm.trans ((bestProfile input hx).1)) (by decide))
        have fA : isAlchemyQuery input = false := Bool.eq_false_iff.mpr (fun hx => absurd (((brewProfile input hB).1).symm.trans ((alchProfile input hx).1)) (by decide))
        have fX : isExitCommand input = false := Bool.eq_false_iff.mpr
          (fun hx => by rw [exitProfile input hx] at hB; exact absurd hB (by decide))
        simp [acceptCount, b2n, hB, fL, fT, fE, fF, fN, fI, fQ, fA, fX]
      · have gB : isBrewAction input = false := Bool.eq_false_iff.mpr hB
        by_cases hE : isEffectivenessKnowledge input = true
        · have fL : isLootAction input = false := Bool.eq_false_iff.mpr (fun hx => absurd (((effProfile input hE).2.1).symm.trans ((lootProfile input hx).2)) (by decide))
          have fT : isTradeAction input = false := Bool.eq_false_iff.mpr (fun hx => absurd (((effProfile input hE).2.1).symm.trans ((tradeProfile input hx).2)) (by decide))
          have fB : isBrewAction input = false := Bool.eq_false_iff.mpr (fun hx => absurd (((effProfile input hE).2.1).symm.trans ((brewProfile input hx).2)) (by decide))
          have fF : isPotionFormulaKnowledge input = false := Bool.eq_false_iff.mpr (fun hx => eff_formula_clash input hE hx)
          have fN : isEncounterSentence input = false := Bool.eq_false_iff.mpr (fun hx => absurd (((effProfile input hE).2.1).symm.trans ((encProfile input hx).2)) (by decide))
          have fI : (isInventoryQuery input).1 = false := Bool.eq_false_iff.mpr (fun hx => absurd (((effProfile input hE).1).symm.trans (invProfile input hx)) (by decide))
          have fQ : isBestiaryQuery input = false := Bool.eq_false_iff.mpr (fun hx => absurd (((effProfile input hE).1).symm.trans ((bestProfile input hx).1)) (by decide))
          have fA : isAlchemyQuery input = false := Bool.eq_false_iff.mpr (fun hx => absurd (((effProfile input hE).1).symm.trans ((alchProfile input hx).1)) (by decide))
          have fX : isExitCommand input = false := Bool.eq_false_iff.mpr
            (fun hx => by rw [exitProfile input hx] at hE; exact absurd hE (by decide))
          simp [acceptCount, b2n, hE, fL, fT, fB, fF, fN, fI, fQ, fA, fX]
        · have gE : isEffectivenessKnowledge input = false := Bool.eq_false_iff.mpr hE
          by_cases hF : isPotionFormulaKnowledge input = true
          · have fL : isLootAction input = false := Bool.eq_false_iff.mpr (fun hx => absurd (((formulaProfile input hF).2.1).symm.trans ((lootProfile input hx).2)) (by decide))
            have fT : isTradeAction input = false := Bool.eq_false_iff.mpr (fun hx => absurd (((formulaProfile input hF).2.1).symm.trans ((tradeProfile input hx).2)) (by decide))
            have fB : isBrewAction input = false := Bool.eq_false_iff.mpr (fun hx => absurd (((formulaProfile input hF).2.1).symm.trans ((brewProfile input hx).2)) (by decide))
            have fE : isEffectivenessKnowledge input = false := Bool.eq_false_iff.mpr (fun hx => eff_formula_clash input hx hF)
            have fN : isEncounterSentence input = false := Bool.eq_false_iff.mpr (fun hx => absurd (((formulaProfile input hF).2.1).symm.trans ((encProfile input hx).2)) (by decide))
            have fI : (isInventoryQuery input).1 = false := Bool.eq_false_iff.mpr (fun hx => absurd (((formulaProfile input hF).1).symm.trans (invProfile input hx)) (by decide))
            have fQ : isBestiaryQuery input = false := Bool.eq_false_iff.mpr (fun hx => absurd (((formulaProfile input hF).1).symm.trans ((bestProfile input hx).1)) (by decide))
            have fA : isAlchemyQuery input = false := Bool.eq_false_iff.mpr (fun hx => absurd (((formulaProfile input hF).1).symm.trans ((alchProfile input hx).1)) (by decide))
            have fX : isExitCommand input = false := Bool.eq_false_iff.mpr
              (fun hx => by rw [exitProfile input hx] at hF; exact absurd hF (by decide))
            simp [acceptCount, b2n, hF, fL, fT, fB, fE, fN, fI, fQ, fA, fX]
          · have gF : isPotionFormulaKnowledge input = false := Bool.eq_false_iff.mpr hF
            by_cases hN : isEncounterSentence input = true
            · have fL : isLootAction input = false := Bool.eq_false_iff.mpr (fun hx => absurd (((encProfile input hN).2).symm.trans ((lootProfile input hx).2)) (by decide))
              have fT : isTradeAction input = false := Bool.eq_false_iff.mpr (fun hx => absurd (((encProfile input hN).2).symm.trans ((tradeProfile input hx).2)) (by decide))
              have fB : isBrewAction input = false := Bool.eq_false_iff.mpr (fun hx => absurd (((encProfile input hN).2).symm.trans ((brewProfile input hx).2)) (by decide))
              have fE : isEffectivenessKnowledge input = false := Bool.eq_false_iff.mpr (fun hx => absurd (((encProfile input hN).2).symm.trans ((effProfile input hx).2.1)) (by decide))
              have fF : isPotionFormulaKnowledge input = false := Bool.eq_false_iff.mpr (fun hx => absurd (((encProfile input hN).2).symm.trans ((formulaProfile input hx).2.1)) (by decide))
              have fI : (isInventoryQuery input).1 = false := Bool.eq_false_iff.mpr (fun hx => absurd (((encProfile input hN).1).symm.trans (invProfile input hx)) (by decide))
              have fQ : isBestiaryQuery input = false := Bool.eq_false_iff.mpr (fun hx => absurd (((encProfile input hN).1).symm.trans ((bestProfile input hx).1)) (by decide))
              have fA : isAlchemyQuery input = false := Bool.eq_false_iff.mpr (fun hx => absurd (((encProfile input hN).1).symm.trans ((alchProfile input hx).1)) (by decide))
              have fX : isExitCommand input = false := Bool.eq_false_iff.mpr
                (fun hx => by rw [exitProfile input hx] at hN; exact absurd hN (by decide))
              simp [acceptCount, b2n, hN, fL, fT, fB, fE, fF, fI, fQ, fA, fX]
            · have gN : isEncounterSentence input = false := Bool.eq_false_iff.mpr hN
              by_cases hI : (isInventoryQuery input).1 = true
              · have fL : isLootAction input = false := Bool.eq_false_iff.mpr (fun hx => absurd ((invProfile input hI).symm.trans ((lootProfile input hx).1)) (by decide))
                have fT : isTradeAction input = false := Bool.eq_false_iff.mpr (fun hx => absurd ((invProfile input hI).symm.trans ((tradeProfile input hx).1)) (by decide))
                have fB : isBrewAction input = false := Bool.eq_false_iff.mpr (fun hx => absurd ((invProfile input hI).symm.trans ((brewProfile input hx).1)) (by decide))
                have fE : isEffectivenessKnowledge input = false := Bool.eq_false_iff.mpr (fun hx => absurd ((invProfile input hI).symm.trans ((effProfile input hx).1)) (by decide))
                have fF : isPotionFormulaKnowledge input = false := Bool.eq_false_iff.mpr (fun hx => absurd ((invProfile input hI).symm.trans ((formulaProfile input hx).1)) (by decide))
                have fN : isEncounterSentence input = false := Bool.eq_false_iff.mpr (fun hx => absurd ((invProfile input hI).symm.trans ((encProfile input hx).1)) (by decide))
                have fQ : isBestiaryQuery input = false := Bool.eq_false_iff.mpr (fun hx => absurd ((invProfile input hI).symm.trans ((bestProfile input hx).1)) (by decide))
                have fA : isAlchemyQuery input = false := Bool.eq_false_iff.mpr (fun hx => absurd ((invProfile input hI).symm.trans ((alchProfile input hx).1)) (by decide))
                have fX : isExitCommand input = false := Bool.eq_false_iff.mpr
                  (fun hx => by rw [exitProfile input hx] at hI; exact absurd hI (by decide))
                simp [acceptCount, b2n, hI, fL, fT, fB, fE, fF, fN, fQ, fA, fX]
              · have gI : (isInventoryQuery input).1 = false := Bool.eq_false_iff.mpr hI
                by_cases hQ : isBestiaryQuery input = true
                · have fL : isLootAction input = false := Bool.eq_false_iff.mpr (fun hx => absurd (((bestProfile input hQ).1).symm.trans ((lootProfile input hx).1)) (by decide))
                  have fT : isTradeAction input = false := Bool.eq_false_iff.mpr (fun hx => absurd (((bestProfile input hQ).1).symm.trans ((tradeProfile input hx).1)) (by decide))
                  have fB : isBrewAction input = false := Bool.eq_false_iff.mpr (fun hx => absurd (((bestProfile input hQ).1).symm.trans ((brewProfile input hx).1)) (by decide))
                  have fE : isEffectivenessKnowledge input = false := Bool.eq_false_iff.mpr (fun hx => absurd (((bestProfile input hQ).1).symm.trans ((effProfile input hx).1)) (by decide))
                  have fF : isPotionFormulaKnowledge input = false := Bool.eq_false_iff.mpr (fun hx => absurd (((bestProfile input hQ).1).symm.trans ((formulaProfile input hx).1)) (by decide))
                  have fN : isEncounterSentence input = false := Bool.eq_false_iff.mpr (fun hx => absurd (((bestProfile input hQ).1).symm.trans ((encProfile input hx).1)) (by decide))
                  have fI : (isInventoryQuery input).1 = false := Bool.eq_false_iff.mpr (fun hx => absurd (((bestProfile input hQ).1).symm.trans (invProfile input hx)) (by decide))
                  have fA : isAlchemyQuery input = false := Bool.eq_false_iff.mpr (fun hx => absurd (((bestProfile input hQ).2).symm.trans ((alchProfile input hx).2)) (by decide))
                  have fX : isExitCommand input = false := Bool.eq_false_iff.mpr
                    (fun hx => by rw [exitProfile input hx] at hQ; exact absurd hQ (by decide))
                  simp [acceptCount, b2n, hQ, fL, fT, fB, fE, fF, fN, fI, fA, fX]
                · have gQ : isBestiaryQuery input = false := Bool.eq_false_iff.mpr hQ
                  by_cases hA : isAlchemyQuery input = true
                  · have fL : isLootAction input = false := Bool.eq_false_iff.mpr (fun hx => absurd (((alchProfile input hA).1).symm.trans ((lootProfile input hx).1)) (by decide))
                    have fT : isTradeAction input = false := Bool.eq_false_iff.mpr (fun hx => absurd (((alchProfile input hA).1).symm.trans ((tradeProfile input hx).1)) (by decide))
                    have fB : isBrewAction input = false := Bool.eq_false_iff.mpr (fun hx => absurd (((alchProfile input hA).1).symm.trans ((brewProfile input hx).1)) (by decide))
                    have fE : isEffectivenessKnowledge input = false := Bool.eq_false_iff.mpr (fun hx => absurd (((alchProfile input hA).1).symm.trans ((effProfile input hx).1)) (by decide))
                    have fF : isPotionFormulaKnowledge input = false := Bool.eq_false_iff.mpr (fun hx => absurd (((alchProfile input hA).1).symm.trans ((formulaProfile input hx).1)) (by decide))
                    have fN : isEncounterSentence input = false := Bool.eq_false_iff.mpr (fun hx => absurd (((alchProfile input hA).1).symm.trans ((encProfile input hx).1)) (by decide))
                    have fI : (isInventoryQuery input).1 = false := Bool.eq_false_iff.mpr (fun hx => absurd (((alchProfile input hA).1).symm.trans (invProfile input hx)) (by decide))
                    have fQ : isBestiaryQuery input = false := Bool.eq_false_iff.mpr (fun hx => absurd (((alchProfile input hA).2).symm.trans ((bestProfile input hx).2)) (by decide))
                    have fX : isExitCommand input = false := Bool.eq_false_iff.mpr
                      (fun hx => by rw [exitProfile input hx] at hA; exact absurd hA (by decide))
                    simp [acceptCount, b2n, hA, fL, fT, fB, fE, fF, fN, fI, fQ, fX]
                  · have gA : isAlchemyQuery input = false := Bool.eq_false_iff.mpr hA
                    cases hx : isExitCommand input <;>
                      simp [acceptCount, b2n, gL, gT, gB, gE, gF, gN, gI, gQ, gA, hx]
